import Mathlib

/-!
# Verification of the aios agent kernel

Shallow embedding of the aios agent kernel (crates `aios-agent`,
`aios-common`, `aios-mcp`) in Lean 4, together with proofs of the
specification's testable properties.

Modelling conventions:
* Rust `String` / `&str` values are byte lists (`List Nat`, each entry a
  `u8` value); Rust guarantees they are valid UTF-8, which is tracked by an
  explicit predicate where a claim depends on it.
* `std::time::Instant` is a natural number of seconds.
* `uuid::Uuid` is a natural number below `2^128`.
* `serde_json::Value` is the `Json` inductive below, with numbers as
  unbounded integers (covering the `i64`/`u64` cases; float payloads are
  outside the model).
* Fallible operations return `Option`/`Except`; async suspension points are
  modelled by explicit environment values describing what the awaited
  operation produced.
-/

/-- Bytes of an ASCII Lean string literal (all literals used are ASCII,
where the char code equals the UTF-8 byte). -/
def asciiBytes (s : String) : List Nat := s.data.map Char.toNat

-- ---------------------------------------------------------------------------
-- Core data model (crate aios-common, types/trust.rs, types/tool.rs,
-- types/message.rs, audit.rs)
-- ---------------------------------------------------------------------------

/-- `TrustLevel` from aios-common/src/types/trust.rs. -/
inductive TrustLevel where
  | user
  | system
  | webContent
  | memory
deriving DecidableEq, Repr

/-- `TrustRequirement` from aios-common/src/types/tool.rs. -/
inductive TrustRequirement where
  | none
  | confirm
  | doubleConfirm
deriving DecidableEq, Repr

/-- `Role` from aios-common/src/types/message.rs. -/
inductive Role where
  | user
  | assistant
  | system
  | tool
deriving DecidableEq, Repr

/-- `ClientType` from aios-common/src/ipc/protocol.rs. -/
inductive ClientType where
  | chat
  | dock
  | confirm
deriving DecidableEq, Repr

/-- `uuid::Uuid`: a 128-bit identifier, stored as its integer value. -/
structure Uuid where
  val : Nat
deriving DecidableEq, Repr

/-- `chrono::DateTime<Utc>` modelled by its calendar fields (the form in
which chrono's serde support writes it). -/
structure Ts where
  year : Nat
  month : Nat
  day : Nat
  hour : Nat
  minute : Nat
  second : Nat
  nanos : Nat
deriving DecidableEq, Repr

/-- `serde_json::Value`.  Numbers are unbounded integers: the `i64`/`u64`
arms of `serde_json::Number`; floating-point numbers are outside the
model. -/
inductive Json where
  | null
  | bool (b : Bool)
  | num (n : Int)
  | str (s : List Nat)
  | arr (elems : List Json)
  | obj (fields : List (List Nat × Json))

/-- `ToolCall` from aios-common/src/types/tool.rs. -/
structure ToolCall where
  id : Uuid
  name : List Nat
  arguments : Json
  trust_level : TrustLevel

/-- `ToolResult` from aios-common/src/types/tool.rs. -/
structure ToolResult where
  call_id : Uuid
  output : List Nat
  is_error : Bool
deriving DecidableEq, Repr

/-- `MessageContent` from aios-common/src/types/message.rs. -/
inductive MessageContent where
  | text (text : List Nat)
  | toolUse (tool_calls : List ToolCall)
  | toolResult (results : List ToolResult)

/-- `ChatMessage` from aios-common/src/types/message.rs. -/
structure ChatMessage where
  id : Uuid
  role : Role
  content : MessageContent
  trust_level : TrustLevel
  timestamp : Ts

/-- `IpcPayload` from aios-common/src/ipc/protocol.rs. -/
inductive IpcPayload where
  | chatRequest (message : List Nat) (conversation_id : Uuid)
  | chatResponse (message : ChatMessage)
  | streamChunk (request_id : Uuid) (delta : List Nat) (done : Bool)
  | confirmRequest (action_id : Uuid) (action_type : List Nat)
      (description : List Nat) (command : List Nat) (trust_level : TrustLevel)
  | confirmResponse (action_id : Uuid) (approved : Bool) (reason : Option (List Nat))
  | register (client_type : ClientType)
  | registerAck (success : Bool)
  | systemInfo (info : Json)
  | error (message : List Nat) (code : Option (List Nat))
  | ping
  | pong

/-- `IpcMessage` from aios-common/src/ipc/protocol.rs. -/
structure IpcMessage where
  id : Uuid
  payload : IpcPayload

/-- `AuditResult` from aios-common/src/audit.rs. -/
inductive AuditResult where
  | ok
  | error (msg : List Nat)
  | rejected
  | timeout
deriving DecidableEq, Repr

/-- `AuditEntry` from aios-common/src/audit.rs. -/
structure AuditEntry where
  timestamp : Ts
  action : List Nat
  arguments : Json
  trust_level : TrustLevel
  user_approved : Bool
  result : AuditResult
  details : Option (List Nat)

-- ---------------------------------------------------------------------------
-- Rate limiter (aios-agent/src/state.rs, RateLimiter)
-- ---------------------------------------------------------------------------

/-- `RateLimiter` from aios-agent/src/state.rs: a sliding window of
timestamps (`VecDeque<Instant>`, front = oldest) plus the per-minute cap. -/
structure RateLimiter where
  window : List Nat
  max_per_minute : Nat
deriving DecidableEq, Repr

/-- `RateLimiter::new`. -/
def RateLimiter.new (max_per_minute : Nat) : RateLimiter :=
  { window := [], max_per_minute := max_per_minute }

/-- `RateLimiter::check_and_record` from aios-agent/src/state.rs, with the
clock reading `now` passed explicitly.  `now.checked_sub(60 s).unwrap_or(now)`
becomes the conditional cutoff; the pop-front loop is `dropWhile`. -/
def RateLimiter.check_and_record (rl : RateLimiter) (now : Nat) :
    Bool × RateLimiter :=
  let one_minute_ago := if 60 ≤ now then now - 60 else now
  let w := rl.window.dropWhile (fun ts => decide (ts < one_minute_ago))
  if rl.max_per_minute ≤ w.length then
    (false, { rl with window := w })
  else
    (true, { rl with window := w ++ [now] })

/-- Fold a sequence of `check_and_record` calls (a trace of clock readings)
over a rate limiter. -/
def RateLimiter.runTrace (rl : RateLimiter) (nows : List Nat) : RateLimiter :=
  nows.foldl (fun r t => (r.check_and_record t).2) rl

-- ---------------------------------------------------------------------------
-- Audit logging (aios-agent/src/audit.rs)
-- ---------------------------------------------------------------------------

/-- `str::is_char_boundary` (Rust core): index 0 is always a boundary, the
index equal to the length is a boundary, and an interior index is a boundary
iff the byte there is not a UTF-8 continuation byte. -/
def is_char_boundary (s : List Nat) (i : Nat) : Bool :=
  if i = 0 then true
  else
    match s[i]? with
    | Option.none => decide (i = s.length)
    | Option.some b => decide (b < 128 ∨ 192 ≤ b)

/-- The `while !s.is_char_boundary(end) { end -= 1 }` loop of
`truncate_output`: the largest char boundary at or below `i`. -/
def floor_char_boundary (s : List Nat) : Nat → Nat
  | 0 => 0
  | i + 1 => if is_char_boundary s (i + 1) then i + 1 else floor_char_boundary s i

/-- The bytes of the `"...[truncated]"` suffix. -/
def truncationSuffix : List Nat := asciiBytes "...[truncated]"

/-- `truncate_output` from aios-agent/src/audit.rs. -/
def truncate_output (s : List Nat) (max_len : Nat) : List Nat :=
  if s.length ≤ max_len then s
  else s.take (floor_char_boundary s max_len) ++ truncationSuffix

/-- Well-formed UTF-8 byte sequences (RFC 3629): a concatenation of 1-4 byte
scalar-value encodings, excluding overlongs and surrogates — the invariant of
a Rust `String`. -/
inductive Utf8Valid : List Nat → Prop where
  | nil : Utf8Valid []
  | one {b : Nat} {t : List Nat} : b ≤ 0x7F → Utf8Valid t → Utf8Valid (b :: t)
  | two {b1 b2 : Nat} {t : List Nat} :
      0xC2 ≤ b1 → b1 ≤ 0xDF → 0x80 ≤ b2 → b2 ≤ 0xBF →
      Utf8Valid t → Utf8Valid (b1 :: b2 :: t)
  | threeLow {b1 b2 b3 : Nat} {t : List Nat} :
      b1 = 0xE0 → 0xA0 ≤ b2 → b2 ≤ 0xBF → 0x80 ≤ b3 → b3 ≤ 0xBF →
      Utf8Valid t → Utf8Valid (b1 :: b2 :: b3 :: t)
  | threeMid {b1 b2 b3 : Nat} {t : List Nat} :
      0xE1 ≤ b1 → b1 ≤ 0xEC → 0x80 ≤ b2 → b2 ≤ 0xBF → 0x80 ≤ b3 → b3 ≤ 0xBF →
      Utf8Valid t → Utf8Valid (b1 :: b2 :: b3 :: t)
  | threeSur {b1 b2 b3 : Nat} {t : List Nat} :
      b1 = 0xED → 0x80 ≤ b2 → b2 ≤ 0x9F → 0x80 ≤ b3 → b3 ≤ 0xBF →
      Utf8Valid t → Utf8Valid (b1 :: b2 :: b3 :: t)
  | threeHigh {b1 b2 b3 : Nat} {t : List Nat} :
      0xEE ≤ b1 → b1 ≤ 0xEF → 0x80 ≤ b2 → b2 ≤ 0xBF → 0x80 ≤ b3 → b3 ≤ 0xBF →
      Utf8Valid t → Utf8Valid (b1 :: b2 :: b3 :: t)
  | fourLow {b1 b2 b3 b4 : Nat} {t : List Nat} :
      b1 = 0xF0 → 0x90 ≤ b2 → b2 ≤ 0xBF → 0x80 ≤ b3 → b3 ≤ 0xBF →
      0x80 ≤ b4 → b4 ≤ 0xBF → Utf8Valid t → Utf8Valid (b1 :: b2 :: b3 :: b4 :: t)
  | fourMid {b1 b2 b3 b4 : Nat} {t : List Nat} :
      0xF1 ≤ b1 → b1 ≤ 0xF3 → 0x80 ≤ b2 → b2 ≤ 0xBF → 0x80 ≤ b3 → b3 ≤ 0xBF →
      0x80 ≤ b4 → b4 ≤ 0xBF → Utf8Valid t → Utf8Valid (b1 :: b2 :: b3 :: b4 :: t)
  | fourHigh {b1 b2 b3 b4 : Nat} {t : List Nat} :
      b1 = 0xF4 → 0x80 ≤ b2 → b2 ≤ 0x8F → 0x80 ≤ b3 → b3 ≤ 0xBF →
      0x80 ≤ b4 → b4 ≤ 0xBF → Utf8Valid t → Utf8Valid (b1 :: b2 :: b3 :: b4 :: t)

/-- Which `AuditLogger` recorder produced a record (the spec's five "typed
recorders"). -/
inductive AuditKind where
  | rejected
  | timeout
  | rateLimited
  | success
  | error
deriving DecidableEq, Repr

/-- One audit-log line: the recorder used, and the `AuditEntry` it wrote. -/
structure AuditRecord where
  kind : AuditKind
  entry : AuditEntry

/-- `AuditLogger::log_rejected` (aios-agent/src/audit.rs), with the clock
reading `now` passed explicitly. -/
def log_rejected (now : Ts) (tool_call : ToolCall) : AuditRecord :=
  { kind := .rejected
    entry :=
      { timestamp := now
        action := tool_call.name
        arguments := tool_call.arguments
        trust_level := tool_call.trust_level
        user_approved := false
        result := .rejected
        details := Option.none } }

/-- `AuditLogger::log_timeout`. -/
def log_timeout (now : Ts) (tool_call : ToolCall) : AuditRecord :=
  { kind := .timeout
    entry :=
      { timestamp := now
        action := tool_call.name
        arguments := tool_call.arguments
        trust_level := tool_call.trust_level
        user_approved := false
        result := .timeout
        details := Option.none } }

/-- `AuditLogger::log_rate_limited`. -/
def log_rate_limited (now : Ts) (tool_call : ToolCall) : AuditRecord :=
  { kind := .rateLimited
    entry :=
      { timestamp := now
        action := tool_call.name
        arguments := tool_call.arguments
        trust_level := tool_call.trust_level
        user_approved := false
        result := .error (asciiBytes "rate limit exceeded")
        details := Option.some (asciiBytes "Destructive action rate limit exceeded") } }

/-- `AuditLogger::log_success`. -/
def log_success (now : Ts) (tool_call : ToolCall) (result : ToolResult) : AuditRecord :=
  { kind := .success
    entry :=
      { timestamp := now
        action := tool_call.name
        arguments := tool_call.arguments
        trust_level := tool_call.trust_level
        user_approved := true
        result := if result.is_error then .error result.output else .ok
        details := Option.some (truncate_output result.output 4096) } }

/-- `AuditLogger::log_error`. -/
def log_error (now : Ts) (tool_call : ToolCall) (errMsg : List Nat) : AuditRecord :=
  { kind := .error
    entry :=
      { timestamp := now
        action := tool_call.name
        arguments := tool_call.arguments
        trust_level := tool_call.trust_level
        user_approved := true
        result := .error errMsg
        details := Option.none } }

-- ---------------------------------------------------------------------------
-- Confirmation flow (aios-agent/src/tool_executor.rs, request_confirmation,
-- and the router's ConfirmResponse arm, aios-agent/src/router.rs)
-- ---------------------------------------------------------------------------

/-- `ConfirmOutcome` from aios-agent/src/tool_executor.rs. -/
inductive ConfirmOutcome where
  | approved
  | rejected
  | timeout
  | noClient
  | sendFailed
deriving DecidableEq, Repr

/-- How the 60-second one-shot wait in `request_confirmation` resolves:
a `ConfirmResponse{action_id, approved}` reaches the router in time, the
one-shot sender is dropped without a send, or the timeout elapses. -/
inductive ConfirmReply where
  | answered (approved : Bool)
  | dropped
  | timeout
deriving DecidableEq, Repr

/-- Environment of one `request_confirmation` invocation: whether
`state.find_client(ClientType::Confirm)` finds a client, whether the locked
writer's `send(&confirm_msg)` succeeds, and how the one-shot wait resolves. -/
structure ConfirmEnv where
  hasConfirmClient : Bool
  sendOk : Bool
  reply : ConfirmReply
deriving DecidableEq, Repr

/-- `pending_confirms.remove(&action_id)` on the pending-confirm table,
modelled as the list of keys (the one-shot senders only matter through
membership here). -/
def removePending (pending : List Uuid) (action_id : Uuid) : List Uuid :=
  pending.filter (fun a => decide (a ≠ action_id))

/-- The `ConfirmResponse` arm of `route_message`
(aios-agent/src/router.rs lines 91-109): look up and remove the pending
entry, then fire the one-shot sender (the send itself is outside the table
model). -/
def route_confirm_response (pending : List Uuid) (action_id : Uuid) : List Uuid :=
  removePending pending action_id

/-- `request_confirmation` from aios-agent/src/tool_executor.rs, as a
transition on the pending-confirm table.  `action_id` is the freshly
allocated UUID.  The entry is inserted before the send; each resolution path
removes it: `NoClient` and `SendFailed` remove it in `request_confirmation`
itself, a timely answer is removed by the router's `ConfirmResponse` arm
(which is what fired the channel), the timeout arm removes it, and a dropped
sender can only have been dropped by leaving the table (the table owns the
senders). -/
def request_confirmation (pending : List Uuid) (action_id : Uuid)
    (env : ConfirmEnv) : ConfirmOutcome × List Uuid :=
  let pending1 := action_id :: pending
  if !env.hasConfirmClient then
    (.noClient, removePending pending1 action_id)
  else if !env.sendOk then
    (.sendFailed, removePending pending1 action_id)
  else
    match env.reply with
    | .answered approved =>
        ((if approved then .approved else .rejected),
         route_confirm_response pending1 action_id)
    | .dropped => (.rejected, removePending pending1 action_id)
    | .timeout => (.timeout, removePending pending1 action_id)

-- ---------------------------------------------------------------------------
-- Tool execution pipeline (aios-agent/src/tool_executor.rs,
-- execute_tool_call)
-- ---------------------------------------------------------------------------

/-- The slice of a registered tool that `execute_tool_call` reads:
`tool.definition().description` and `tool.trust_requirement()`. -/
structure ToolSpec where
  description : List Nat
  trust_requirement : TrustRequirement
deriving DecidableEq, Repr

/-- Result of `tool.execute(args, ctx)`: `Ok(tool_result)` or `Err(e)`. -/
inductive ExecOutcome where
  | ok (r : ToolResult)
  | err (msg : List Nat)
deriving DecidableEq, Repr

/-- Environment of one `execute_tool_call` invocation: the registry lookup
result, the clock readings, the confirmation environment, the fresh
action id, and the tool's own execution outcome. -/
structure ExecEnv where
  tool : Option ToolSpec
  now : Nat
  logNow : Ts
  confirm : ConfirmEnv
  action_id : Uuid
  execResult : ExecOutcome

/-- The kernel-state fields `execute_tool_call` mutates. -/
structure ExecState where
  pending_confirms : List Uuid
  rate_limiter : RateLimiter

/-- Steps 4-5 of the pipeline (`tool.execute` then the success/error audit),
reached after gating passed. -/
def execute_and_audit (tc : ToolCall) (env : ExecEnv) (st : ExecState) :
    ToolResult × ExecState × List AuditRecord :=
  match env.execResult with
  | .err msg =>
      let error_msg := asciiBytes "Execution error: " ++ msg
      ({ call_id := tc.id, output := error_msg, is_error := true },
       st, [log_error env.logNow tc error_msg])
  | .ok r => (r, st, [log_success env.logNow tc r])

/-- `execute_tool_call` from aios-agent/src/tool_executor.rs:
lookup → rate limit → confirm → execute → audit.  Returns the `ToolResult`,
the updated kernel state, and the audit records written (in order). -/
def execute_tool_call (tc : ToolCall) (env : ExecEnv) (st : ExecState) :
    ToolResult × ExecState × List AuditRecord :=
  match env.tool with
  | Option.none =>
      ({ call_id := tc.id, output := asciiBytes "Unknown tool: " ++ tc.name,
         is_error := true }, st, [])
  | Option.some tool =>
      let trust_req := tool.trust_requirement
      let rateStep :=
        if trust_req = .doubleConfirm then st.rate_limiter.check_and_record env.now
        else (true, st.rate_limiter)
      let st1 : ExecState := { st with rate_limiter := rateStep.2 }
      if !rateStep.1 then
        ({ call_id := tc.id,
           output := asciiBytes
             "Rate limit exceeded for destructive actions. Please wait before retrying.",
           is_error := true },
         st1, [log_rate_limited env.logNow tc])
      else if trust_req ≠ .none then
        match request_confirmation st1.pending_confirms env.action_id env.confirm with
        | (.approved, p) =>
            execute_and_audit tc env { st1 with pending_confirms := p }
        | (.rejected, p) =>
            ({ call_id := tc.id, output := asciiBytes "Action rejected by user",
               is_error := true },
             { st1 with pending_confirms := p }, [log_rejected env.logNow tc])
        | (.timeout, p) =>
            ({ call_id := tc.id, output := asciiBytes "Confirmation timed out (60s)",
               is_error := true },
             { st1 with pending_confirms := p }, [log_timeout env.logNow tc])
        | (.noClient, p) =>
            ({ call_id := tc.id,
               output := asciiBytes "No confirmation client connected. Cannot execute this action.",
               is_error := true },
             { st1 with pending_confirms := p }, [log_rejected env.logNow tc])
        | (.sendFailed, p) =>
            ({ call_id := tc.id,
               output := asciiBytes "Internal error: failed to contact confirmation client",
               is_error := true },
             { st1 with pending_confirms := p },
             [log_error env.logNow tc (asciiBytes "IPC send failed")])
      else
        execute_and_audit tc env st1

-- ---------------------------------------------------------------------------
-- Agentic loop (aios-agent/src/router.rs, agentic_loop /
-- force_text_response): count of provider.complete calls
-- ---------------------------------------------------------------------------

/-- `MAX_TOOL_ITERATIONS` from aios-agent/src/router.rs. -/
def MAX_TOOL_ITERATIONS : Nat := 10

/-- What one `provider.complete` call produces, as branched on by
`agentic_loop`: an error, a `Text` message (loop returns), a `ToolUse`
message (loop continues), or the unexpected `ToolResult` content variant
(returned as-is). -/
inductive LlmReply where
  | failure
  | text
  | toolUse
  | toolResultContent
deriving DecidableEq, Repr

/-- The `for iteration in 0..MAX_TOOL_ITERATIONS` loop of `agentic_loop`,
counting `provider.complete` calls.  `reply i` is the outcome of the i-th
call.  When the iteration budget is exhausted, `force_text_response` makes
exactly one more call (the provider is present on this path). -/
def agenticLoopCalls (reply : Nat → LlmReply) (calls : Nat) : Nat → Nat
  | 0 => calls + 1
  | n + 1 =>
    match reply calls with
    | .failure => calls + 1
    | .text => calls + 1
    | .toolUse => agenticLoopCalls reply (calls + 1) n
    | .toolResultContent => calls + 1

/-- Number of `provider.complete` calls one `ChatRequest` causes in
`agentic_loop` (router.rs lines 130-229): zero in echo mode, otherwise the
bounded loop plus the force-text call. -/
def agentic_loop_llm_calls (has_provider : Bool) (reply : Nat → LlmReply) : Nat :=
  if !has_provider then 0
  else agenticLoopCalls reply 0 MAX_TOOL_ITERATIONS

-- ---------------------------------------------------------------------------
-- Kernel-state lock discipline (C9): event traces of the relevant
-- router.rs code regions
-- ---------------------------------------------------------------------------

/-- Kernel-state lock operations and indefinitely-suspending awaits, in
program order, for a straight-line region of code. -/
inductive LockEvent where
  | readAcquire
  | readRelease
  | writeAcquire
  | writeRelease
  | awaitLlmComplete
  | awaitToolExecute
deriving DecidableEq, Repr

/-- Scan a trace tracking how many kernel-state guards are live; `true` iff
some indefinitely-suspending await happens with a guard held. -/
def guardDepthScan : Nat → List LockEvent → Bool
  | _, [] => false
  | depth, e :: rest =>
    match e with
    | .readAcquire => guardDepthScan (depth + 1) rest
    | .readRelease => guardDepthScan (depth - 1) rest
    | .writeAcquire => guardDepthScan (depth + 1) rest
    | .writeRelease => guardDepthScan (depth - 1) rest
    | .awaitLlmComplete => decide (0 < depth) || guardDepthScan depth rest
    | .awaitToolExecute => decide (0 < depth) || guardDepthScan depth rest

/-- `holdsGuardAcrossAwait tr` iff an LLM-complete or tool-execute await in
`tr` runs while a kernel-state guard is held. -/
def holdsGuardAcrossAwait (events : List LockEvent) : Bool :=
  guardDepthScan 0 events

/-- Lock/await trace of `call_llm` (router.rs lines 232-262), statement by
statement: the snapshot block takes and drops a read guard (lines 236-245);
then line 255 binds `state_guard = state.read().await`, line 260 awaits
`provider.complete(&llm_request)` with that guard still live, and the guard
is dropped only when `call_llm` returns. -/
def call_llm_events : List LockEvent :=
  [ .readAcquire, .readRelease,
    .readAcquire, .awaitLlmComplete, .readRelease ]

/-- Lock/await trace of one tool call in the tool-execution loop of
`agentic_loop` (router.rs lines 198-203): the block binds
`state_guard = state.read().await` (line 199), awaits
`execute_tool_call(tc, registry, state, audit_logger)` (line 202) with the
guard live (`registry` and `audit_logger` borrow from it), and drops the
guard at the block's end. -/
def tool_loop_call_events : List LockEvent :=
  [ .readAcquire, .awaitToolExecute, .readRelease ]

/-- Lock/await trace of the `result` block of `force_text_response`
(router.rs lines 286-293): a read guard is held across
`provider.complete(&llm_request).await`. -/
def force_text_events : List LockEvent :=
  [ .readAcquire, .awaitLlmComplete, .readRelease ]

-- ---------------------------------------------------------------------------
-- serde_json / uuid / chrono serialization model (for the framing codec).
-- `serde_json::to_vec` is modelled by a byte-exact compact JSON renderer;
-- `serde_json::from_slice` by a recursive-descent parser over bytes.
-- ---------------------------------------------------------------------------

/-- Value of an ASCII hex digit byte (serde_json and uuid accept both
cases). -/
def hexValOf (b : Nat) : Option Nat :=
  if 48 ≤ b ∧ b ≤ 57 then Option.some (b - 48)
  else if 97 ≤ b ∧ b ≤ 102 then Option.some (b - 87)
  else if 65 ≤ b ∧ b ≤ 70 then Option.some (b - 55)
  else Option.none

/-- Lowercase hex digit byte of a nibble (serde_json's and uuid's tables). -/
def hexByteOf (d : Nat) : Nat := if d < 10 then 48 + d else 87 + d

/-- Value of an ASCII decimal digit byte. -/
def decValOf (b : Nat) : Option Nat :=
  if 48 ≤ b ∧ b ≤ 57 then Option.some (b - 48) else Option.none

/-- Decimal digit byte of a value below 10. -/
def decByteOf (d : Nat) : Nat := 48 + d

/-- Fixed-width big-endian hex rendering: the `w` hex digit bytes of `n`. -/
def toHexDigits : Nat → Nat → List Nat
  | 0, _ => []
  | w + 1, n => hexByteOf (n / 16 ^ w) :: toHexDigits w (n % 16 ^ w)

/-- Fixed-width big-endian decimal rendering: the `w` digit bytes of `n`
(zero-padded, as chrono's `%Y`/`%m`/... specifiers print). -/
def toDecDigits : Nat → Nat → List Nat
  | 0, _ => []
  | w + 1, n => decByteOf (n / 10 ^ w) :: toDecDigits w (n % 10 ^ w)

/-- Read exactly `w` hex digit bytes, folding them onto `acc`. -/
def readHex : Nat → Nat → List Nat → Option (Nat × List Nat)
  | 0, acc, s => Option.some (acc, s)
  | _ + 1, _, [] => Option.none
  | w + 1, acc, b :: rest =>
    match hexValOf b with
    | Option.some d => readHex w (acc * 16 + d) rest
    | Option.none => Option.none

/-- Read exactly `w` decimal digit bytes, folding them onto `acc`. -/
def readDecFix : Nat → Nat → List Nat → Option (Nat × List Nat)
  | 0, acc, s => Option.some (acc, s)
  | _ + 1, _, [] => Option.none
  | w + 1, acc, b :: rest =>
    match decValOf b with
    | Option.some d => readDecFix w (acc * 10 + d) rest
    | Option.none => Option.none

/-- Decimal digit bytes of `n`, no padding (Rust's integer `Display`, used
by serde_json for `u64`/`i64` and by `itoa`). -/
def natToDec (n : Nat) : List Nat :=
  if h : n < 10 then [48 + n]
  else natToDec (n / 10) ++ [48 + n % 10]
termination_by n
decreasing_by exact Nat.div_lt_self (by omega) (by omega)

/-- serde_json's rendering of an integer `serde_json::Number`. -/
def renderInt (n : Int) : List Nat :=
  if n < 0 then 45 :: natToDec n.natAbs else natToDec n.natAbs

/-- serde_json's escaping of one byte of string content: `"` and `\` get a
backslash escape, the five C0 controls with short forms use them, any other
control below 0x20 becomes `\u00XX`, and all other bytes (including UTF-8
continuation bytes) pass through verbatim. -/
def escapeByte (b : Nat) : List Nat :=
  if b = 34 then [92, 34]
  else if b = 92 then [92, 92]
  else if b = 8 then [92, 98]
  else if b = 9 then [92, 116]
  else if b = 10 then [92, 110]
  else if b = 12 then [92, 102]
  else if b = 13 then [92, 114]
  else if b < 32 then [92, 117, 48, 48, hexByteOf (b / 16), hexByteOf (b % 16)]
  else [b]

/-- Escape a whole string body. -/
def escapeBytes : List Nat → List Nat
  | [] => []
  | b :: t => escapeByte b ++ escapeBytes t

/-- UTF-8 encoding of a unicode scalar value (used when the parser decodes a
`\uXXXX` escape back to bytes). -/
def utf8EncodeCp (c : Nat) : List Nat :=
  if c < 128 then [c]
  else if c < 2048 then [192 + c / 64, 128 + c % 64]
  else if c < 65536 then [224 + c / 4096, 128 + c / 64 % 64, 128 + c % 64]
  else [240 + c / 262144, 128 + c / 4096 % 64, 128 + c / 64 % 64, 128 + c % 64]

/-- The single-character escapes serde_json's parser accepts after `\`. -/
def unescapeByte (e : Nat) : Option Nat :=
  if e = 34 then Option.some 34
  else if e = 92 then Option.some 92
  else if e = 47 then Option.some 47
  else if e = 98 then Option.some 8
  else if e = 102 then Option.some 12
  else if e = 110 then Option.some 10
  else if e = 114 then Option.some 13
  else if e = 116 then Option.some 9
  else Option.none

/-- `uuid::Uuid`'s serde serialization: the hyphenated lowercase-hex string
(8-4-4-4-12 nibbles of the 128-bit value). -/
def uuidRender (u : Uuid) : List Nat :=
  toHexDigits 8 (u.val / 2 ^ 96) ++
  45 :: toHexDigits 4 (u.val / 2 ^ 80 % 2 ^ 16) ++
  45 :: toHexDigits 4 (u.val / 2 ^ 64 % 2 ^ 16) ++
  45 :: toHexDigits 4 (u.val / 2 ^ 48 % 2 ^ 16) ++
  45 :: toHexDigits 12 (u.val % 2 ^ 48)

/-- `uuid::Uuid`'s deserialization, restricted to the hyphenated form the
serializer emits; the whole string must be consumed. -/
def pUuid (s : List Nat) : Option Uuid :=
  match readHex 8 0 s with
  | Option.some (a1, 45 :: r1) =>
    match readHex 4 a1 r1 with
    | Option.some (a2, 45 :: r2) =>
      match readHex 4 a2 r2 with
      | Option.some (a3, 45 :: r3) =>
        match readHex 4 a3 r3 with
        | Option.some (a4, 45 :: r4) =>
          match readHex 12 a4 r4 with
          | Option.some (a5, []) => Option.some { val := a5 }
          | _ => Option.none
        | _ => Option.none
      | _ => Option.none
    | _ => Option.none
  | _ => Option.none

/-- The calendar-field bounds under which the timestamp model is exact
(chrono values always satisfy the true, tighter day-of-month rules; this
superset is the hypothesis the round-trip is proved under). -/
def tsWfB (t : Ts) : Bool :=
  decide (t.year ≤ 9999 ∧ 1 ≤ t.month ∧ t.month ≤ 12 ∧ 1 ≤ t.day ∧ t.day ≤ 31 ∧
    t.hour ≤ 23 ∧ t.minute ≤ 59 ∧ t.second ≤ 59 ∧ t.nanos < 1000000000)

/-- chrono's `%.f`-style fractional seconds: nothing when zero, else 3, 6 or
9 digits depending on the finest nonzero unit (the `Debug`/serde form). -/
def tsFrac (nanos : Nat) : List Nat :=
  if nanos = 0 then []
  else if nanos % 1000000 = 0 then 46 :: toDecDigits 3 (nanos / 1000000)
  else if nanos % 1000 = 0 then 46 :: toDecDigits 6 (nanos / 1000)
  else 46 :: toDecDigits 9 nanos

/-- chrono `DateTime<Utc>`'s serde serialization (its RFC 3339 `Debug`
form): `YYYY-MM-DDTHH:MM:SS[.fff[fff[fff]]]Z`. -/
def tsRender (t : Ts) : List Nat :=
  toDecDigits 4 t.year ++ 45 :: toDecDigits 2 t.month ++ 45 :: toDecDigits 2 t.day ++
  84 :: toDecDigits 2 t.hour ++ 58 :: toDecDigits 2 t.minute ++
  58 :: toDecDigits 2 t.second ++ tsFrac t.nanos ++ [90]

/-- Run of decimal digits: digit count, value, and the rest. -/
def readFracDigits : List Nat → Nat → Nat → Nat × Nat × List Nat
  | [], cnt, acc => (cnt, acc, [])
  | b :: rest, cnt, acc =>
    match decValOf b with
    | Option.some d => readFracDigits rest (cnt + 1) (acc * 10 + d)
    | Option.none => (cnt, acc, b :: rest)

/-- chrono's RFC 3339 parsing, restricted to the UTC (`Z`) form the
serializer emits; enforces the field bounds of `tsWfB` and requires the
whole string to be consumed. -/
def pTs (s : List Nat) : Option Ts :=
  match readDecFix 4 0 s with
  | Option.some (y, 45 :: r1) =>
    match readDecFix 2 0 r1 with
    | Option.some (mo, 45 :: r2) =>
      match readDecFix 2 0 r2 with
      | Option.some (d, 84 :: r3) =>
        match readDecFix 2 0 r3 with
        | Option.some (h, 58 :: r4) =>
          match readDecFix 2 0 r4 with
          | Option.some (mi, 58 :: r5) =>
            match readDecFix 2 0 r5 with
            | Option.some (sec, r6) =>
              match r6 with
              | 90 :: [] =>
                let t : Ts := { year := y, month := mo, day := d, hour := h,
                                minute := mi, second := sec, nanos := 0 }
                if tsWfB t then Option.some t else Option.none
              | 46 :: r7 =>
                match readFracDigits r7 0 0 with
                | (cnt, v, 90 :: []) =>
                  if 1 ≤ cnt ∧ cnt ≤ 9 then
                    let t : Ts := { year := y, month := mo, day := d, hour := h,
                                    minute := mi, second := sec,
                                    nanos := v * 10 ^ (9 - cnt) }
                    if tsWfB t then Option.some t else Option.none
                  else Option.none
                | _ => Option.none
              | _ => Option.none
            | _ => Option.none
          | _ => Option.none
        | _ => Option.none
      | _ => Option.none
    | _ => Option.none
  | _ => Option.none

/-- Strip an expected literal prefix, returning the rest together with the
length bookkeeping the parsers need. -/
def stripPfx (pat input : List Nat) :
    Option {r : List Nat // r.length + pat.length = input.length} :=
  if h : input.take pat.length = pat ∧ pat.length ≤ input.length then
    Option.some ⟨input.drop pat.length, by
      have := h.2
      simp [List.length_drop]
      omega⟩
  else Option.none

mutual
/-- serde_json's compact rendering of a value (`serde_json::to_vec`). -/
def renderJson : Json → List Nat
  | .null => asciiBytes "null"
  | .bool true => asciiBytes "true"
  | .bool false => asciiBytes "false"
  | .num n => renderInt n
  | .str s => 34 :: (escapeBytes s ++ [34])
  | .arr [] => [91, 93]
  | .arr (x :: xs) => 91 :: (renderJson x ++ renderItemsRest xs) ++ [93]
  | .obj [] => [123, 125]
  | .obj (f :: fs) => 123 :: (renderField f ++ renderFieldsRest fs) ++ [125]

/-- `,`-separated rendering of the array elements after the first. -/
def renderItemsRest : List Json → List Nat
  | [] => []
  | x :: xs => 44 :: renderJson x ++ renderItemsRest xs

/-- Rendering of one object member: `"key":value`. -/
def renderField : List Nat × Json → List Nat
  | (k, v) => 34 :: (escapeBytes k ++ [34, 58]) ++ renderJson v

/-- `,`-separated rendering of the object members after the first. -/
def renderFieldsRest : List (List Nat × Json) → List Nat
  | [] => []
  | f :: fs => 44 :: renderField f ++ renderFieldsRest fs
end

/-- serde_json's string-body parser: content up to the closing quote, with
the backslash escapes (including `\uXXXX` and surrogate pairs) decoded back
to UTF-8 bytes.  `fuel` only forces termination: any
`fuel ≥ input.length` is enough, and every caller supplies at least that. -/
def pStr : Nat → List Nat → Option (List Nat × List Nat)
  | 0, _ => Option.none
  | fuel + 1, input =>
    match input with
    | [] => Option.none
    | b :: rest =>
      if b = 34 then Option.some ([], rest)
      else if b = 92 then
        match rest with
        | [] => Option.none
        | e :: rest2 =>
          if e = 117 then
            match rest2 with
            | h1 :: h2 :: h3 :: h4 :: rest3 =>
              match hexValOf h1, hexValOf h2, hexValOf h3, hexValOf h4 with
              | Option.some d1, Option.some d2, Option.some d3, Option.some d4 =>
                if 55296 ≤ ((d1 * 16 + d2) * 16 + d3) * 16 + d4 ∧
                    ((d1 * 16 + d2) * 16 + d3) * 16 + d4 ≤ 56319 then
                  match rest3 with
                  | 92 :: 117 :: g1 :: g2 :: g3 :: g4 :: rest4 =>
                    match hexValOf g1, hexValOf g2, hexValOf g3, hexValOf g4 with
                    | Option.some e1, Option.some e2, Option.some e3, Option.some e4 =>
                      if 56320 ≤ ((e1 * 16 + e2) * 16 + e3) * 16 + e4 ∧
                          ((e1 * 16 + e2) * 16 + e3) * 16 + e4 ≤ 57343 then
                        match pStr fuel rest4 with
                        | Option.some (sres, r) =>
                          Option.some
                            (utf8EncodeCp (65536 +
                                (((d1 * 16 + d2) * 16 + d3) * 16 + d4 - 55296) * 1024 +
                                (((e1 * 16 + e2) * 16 + e3) * 16 + e4 - 56320)) ++ sres, r)
                        | Option.none => Option.none
                      else Option.none
                    | _, _, _, _ => Option.none
                  | _ => Option.none
                else if 56320 ≤ ((d1 * 16 + d2) * 16 + d3) * 16 + d4 ∧
                    ((d1 * 16 + d2) * 16 + d3) * 16 + d4 ≤ 57343 then Option.none
                else
                  match pStr fuel rest3 with
                  | Option.some (sres, r) =>
                    Option.some
                      (utf8EncodeCp (((d1 * 16 + d2) * 16 + d3) * 16 + d4) ++ sres, r)
                  | Option.none => Option.none
              | _, _, _, _ => Option.none
            | _ => Option.none
          else
            match unescapeByte e with
            | Option.some ch =>
              match pStr fuel rest2 with
              | Option.some (sres, r) => Option.some (ch :: sres, r)
              | Option.none => Option.none
            | Option.none => Option.none
      else
        match pStr fuel rest with
        | Option.some (sres, r) => Option.some (b :: sres, r)
        | Option.none => Option.none

/-- Fold a run of decimal digit bytes onto `acc` (serde_json's integer
accumulation). -/
def pDigits (acc : Nat) (input : List Nat) :
    Nat × {r : List Nat // r.length ≤ input.length} :=
  match hin : input with
  | [] => (acc, ⟨[], by subst hin; simp⟩)
  | b :: rest =>
    match decValOf b with
    | Option.some d =>
      match pDigits (acc * 10 + d) rest with
      | (n, ⟨r, hr⟩) => (n, ⟨r, by subst_vars; simp only [List.length_cons] at *; omega⟩)
    | Option.none => (acc, ⟨b :: rest, by subst hin; simp⟩)


/-- `pDigits` with the length bookkeeping dropped. -/
def pDigitsR (acc : Nat) (input : List Nat) : Nat × List Nat :=
  ((pDigits acc input).1, (pDigits acc input).2.1)

/-- `stripPfx` with the length bookkeeping dropped. -/
def stripPfxR (pat input : List Nat) : Option (List Nat) :=
  (stripPfx pat input).map Subtype.val

mutual
/-- serde_json's value parser, restricted to the compact whitespace-free
form the renderer emits (integers only, see `Json`); returns the parsed
value and the unconsumed rest.  `fuel` only forces termination: any
`fuel ≥ 2 * input.length` is enough (see the completeness lemmas), and
`parseJsonBytes` supplies it. -/
def pVal : Nat → List Nat → Option (Json × List Nat)
  | 0, _ => Option.none
  | fuel + 1, input =>
    match stripPfxR (asciiBytes "null") input with
    | Option.some r => Option.some (.null, r)
    | Option.none =>
    match stripPfxR (asciiBytes "true") input with
    | Option.some r => Option.some (.bool true, r)
    | Option.none =>
    match stripPfxR (asciiBytes "false") input with
    | Option.some r => Option.some (.bool false, r)
    | Option.none =>
    match input with
    | [] => Option.none
    | b :: rest =>
      if b = 34 then
        match pStr fuel rest with
        | Option.some (s, r) => Option.some (.str s, r)
        | Option.none => Option.none
      else if b = 45 then
        match rest with
        | [] => Option.none
        | d :: rest2 =>
          if d = 48 then
            match rest2 with
            | [] => Option.some (.num 0, [])
            | d2 :: _ =>
              match decValOf d2 with
              | Option.some _ => Option.none
              | Option.none => Option.some (.num 0, rest2)
          else
            match decValOf d with
            | Option.some d0 =>
              match pDigitsR d0 rest2 with
              | (n, r) => Option.some (.num (-(n : Int)), r)
            | Option.none => Option.none
      else if b = 91 then
        match rest with
        | [] => Option.none
        | r0 :: rtail =>
          if r0 = 93 then Option.some (.arr [], rtail)
          else
            match pItems fuel (r0 :: rtail) with
            | Option.some (xs, r) => Option.some (.arr xs, r)
            | Option.none => Option.none
      else if b = 123 then
        match rest with
        | [] => Option.none
        | r0 :: rtail =>
          if r0 = 125 then Option.some (.obj [], rtail)
          else
            match pFields fuel (r0 :: rtail) with
            | Option.some (fs, r) => Option.some (.obj fs, r)
            | Option.none => Option.none
      else if b = 48 then
        match rest with
        | [] => Option.some (.num 0, [])
        | d2 :: _ =>
          match decValOf d2 with
          | Option.some _ => Option.none
          | Option.none => Option.some (.num 0, rest)
      else
        match decValOf b with
        | Option.some d0 =>
          match pDigitsR d0 rest with
          | (n, r) => Option.some (.num (n : Int), r)
        | Option.none => Option.none

/-- Array elements after `[` (at least one element present). -/
def pItems : Nat → List Nat → Option (List Json × List Nat)
  | 0, _ => Option.none
  | fuel + 1, input =>
    match pVal fuel input with
    | Option.some (v, 44 :: r2) =>
      match pItems fuel r2 with
      | Option.some (vs, r3) => Option.some (v :: vs, r3)
      | Option.none => Option.none
    | Option.some (v, 93 :: r2) => Option.some ([v], r2)
    | Option.some _ => Option.none
    | Option.none => Option.none

/-- Object members after `{` (at least one member present). -/
def pFields : Nat → List Nat → Option (List (List Nat × Json) × List Nat)
  | 0, _ => Option.none
  | fuel + 1, input =>
    match input with
    | 34 :: rest =>
      match pStr fuel rest with
      | Option.some (k, 58 :: r2) =>
        match pVal fuel r2 with
        | Option.some (v, 44 :: r4) =>
          match pFields fuel r4 with
          | Option.some (fs, r5) => Option.some ((k, v) :: fs, r5)
          | Option.none => Option.none
        | Option.some (v, 125 :: r4) => Option.some ([(k, v)], r4)
        | Option.some _ => Option.none
        | Option.none => Option.none
      | Option.some _ => Option.none
      | Option.none => Option.none
    | _ => Option.none
end

/-- serde_json's top-level `from_slice` shape: one value, all input
consumed. -/
def parseJsonBytes (input : List Nat) : Option Json :=
  match pVal (2 * input.length + 1) input with
  | Option.some (v, []) => Option.some v
  | _ => Option.none

-- ---------------------------------------------------------------------------
-- serde derive model for the envelope types: the JSON tree each `#[derive
-- (Serialize)]` produces (struct fields in declaration order; internally
-- tagged enums with `#[serde(tag = "type", rename_all = "snake_case")]`;
-- `#[serde(flatten)]` splices the payload map after `id`), and the
-- name-based `Deserialize` direction.
-- ---------------------------------------------------------------------------

/-- snake_case tag of a `TrustLevel` value. -/
def trustLevelTag : TrustLevel → List Nat
  | .user => asciiBytes "user"
  | .system => asciiBytes "system"
  | .webContent => asciiBytes "web_content"
  | .memory => asciiBytes "memory"

/-- snake_case tag of a `Role` value. -/
def roleTag : Role → List Nat
  | .user => asciiBytes "user"
  | .assistant => asciiBytes "assistant"
  | .system => asciiBytes "system"
  | .tool => asciiBytes "tool"

/-- snake_case tag of a `ClientType` value. -/
def clientTypeTag : ClientType → List Nat
  | .chat => asciiBytes "chat"
  | .dock => asciiBytes "dock"
  | .confirm => asciiBytes "confirm"

/-- serde tree of a `ToolCall`. -/
def toolCallToJson (tc : ToolCall) : Json :=
  .obj [(asciiBytes "id", .str (uuidRender tc.id)),
        (asciiBytes "name", .str tc.name),
        (asciiBytes "arguments", tc.arguments),
        (asciiBytes "trust_level", .str (trustLevelTag tc.trust_level))]

/-- serde tree of a `ToolResult`. -/
def toolResultToJson (tr : ToolResult) : Json :=
  .obj [(asciiBytes "call_id", .str (uuidRender tr.call_id)),
        (asciiBytes "output", .str tr.output),
        (asciiBytes "is_error", .bool tr.is_error)]

/-- serde tree of a `MessageContent` (internally tagged). -/
def contentToJson : MessageContent → Json
  | .text t =>
      .obj [(asciiBytes "type", .str (asciiBytes "text")),
            (asciiBytes "text", .str t)]
  | .toolUse calls =>
      .obj [(asciiBytes "type", .str (asciiBytes "tool_use")),
            (asciiBytes "tool_calls", .arr (calls.map toolCallToJson))]
  | .toolResult results =>
      .obj [(asciiBytes "type", .str (asciiBytes "tool_result")),
            (asciiBytes "results", .arr (results.map toolResultToJson))]

/-- serde tree of a `ChatMessage`. -/
def chatMessageToJson (m : ChatMessage) : Json :=
  .obj [(asciiBytes "id", .str (uuidRender m.id)),
        (asciiBytes "role", .str (roleTag m.role)),
        (asciiBytes "content", contentToJson m.content),
        (asciiBytes "trust_level", .str (trustLevelTag m.trust_level)),
        (asciiBytes "timestamp", .str (tsRender m.timestamp))]

/-- serde tree of an `Option<String>` field. -/
def optStrToJson : Option (List Nat) → Json
  | Option.none => .null
  | Option.some s => .str s

/-- The map entries an `IpcPayload` contributes under `#[serde(flatten)]`:
the `type` tag first, then the variant's fields in declaration order. -/
def payloadFields : IpcPayload → List (List Nat × Json)
  | .chatRequest message conversation_id =>
      [(asciiBytes "type", .str (asciiBytes "chat_request")),
       (asciiBytes "message", .str message),
       (asciiBytes "conversation_id", .str (uuidRender conversation_id))]
  | .chatResponse m =>
      [(asciiBytes "type", .str (asciiBytes "chat_response")),
       (asciiBytes "message", chatMessageToJson m)]
  | .streamChunk request_id delta done =>
      [(asciiBytes "type", .str (asciiBytes "stream_chunk")),
       (asciiBytes "request_id", .str (uuidRender request_id)),
       (asciiBytes "delta", .str delta),
       (asciiBytes "done", .bool done)]
  | .confirmRequest action_id action_type description command trust_level =>
      [(asciiBytes "type", .str (asciiBytes "confirm_request")),
       (asciiBytes "action_id", .str (uuidRender action_id)),
       (asciiBytes "action_type", .str action_type),
       (asciiBytes "description", .str description),
       (asciiBytes "command", .str command),
       (asciiBytes "trust_level", .str (trustLevelTag trust_level))]
  | .confirmResponse action_id approved reason =>
      [(asciiBytes "type", .str (asciiBytes "confirm_response")),
       (asciiBytes "action_id", .str (uuidRender action_id)),
       (asciiBytes "approved", .bool approved),
       (asciiBytes "reason", optStrToJson reason)]
  | .register client_type =>
      [(asciiBytes "type", .str (asciiBytes "register")),
       (asciiBytes "client_type", .str (clientTypeTag client_type))]
  | .registerAck success =>
      [(asciiBytes "type", .str (asciiBytes "register_ack")),
       (asciiBytes "success", .bool success)]
  | .systemInfo info =>
      [(asciiBytes "type", .str (asciiBytes "system_info")),
       (asciiBytes "info", info)]
  | .error message code =>
      [(asciiBytes "type", .str (asciiBytes "error")),
       (asciiBytes "message", .str message),
       (asciiBytes "code", optStrToJson code)]
  | .ping => [(asciiBytes "type", .str (asciiBytes "ping"))]
  | .pong => [(asciiBytes "type", .str (asciiBytes "pong"))]

/-- serde tree of a whole `IpcMessage` envelope. -/
def ipcToJson (m : IpcMessage) : Json :=
  .obj ((asciiBytes "id", .str (uuidRender m.id)) :: payloadFields m.payload)

/-- `serde_json::to_vec` of an envelope. -/
def serializeIpc (m : IpcMessage) : List Nat := renderJson (ipcToJson m)

/-- Field lookup by name in a serde map (first match, as serde binds each
expected field). -/
def jGet : List (List Nat × Json) → List Nat → Option Json
  | [], _ => Option.none
  | (k, v) :: fs, key => if k = key then Option.some v else jGet fs key

/-- Expect a JSON string. -/
def asStr : Json → Option (List Nat)
  | .str s => Option.some s
  | _ => Option.none

/-- Expect a JSON bool. -/
def asBool : Json → Option Bool
  | .bool b => Option.some b
  | _ => Option.none

/-- Expect `null` or a JSON string (an `Option<String>` field). -/
def asOptStr : Json → Option (Option (List Nat))
  | .null => Option.some Option.none
  | .str s => Option.some (Option.some s)
  | _ => Option.none

/-- Inverse of `trustLevelTag`. -/
def trustLevelFromTag (s : List Nat) : Option TrustLevel :=
  if s = asciiBytes "user" then Option.some .user
  else if s = asciiBytes "system" then Option.some .system
  else if s = asciiBytes "web_content" then Option.some .webContent
  else if s = asciiBytes "memory" then Option.some .memory
  else Option.none

/-- Inverse of `roleTag`. -/
def roleFromTag (s : List Nat) : Option Role :=
  if s = asciiBytes "user" then Option.some .user
  else if s = asciiBytes "assistant" then Option.some .assistant
  else if s = asciiBytes "system" then Option.some .system
  else if s = asciiBytes "tool" then Option.some .tool
  else Option.none

/-- Inverse of `clientTypeTag`. -/
def clientTypeFromTag (s : List Nat) : Option ClientType :=
  if s = asciiBytes "chat" then Option.some .chat
  else if s = asciiBytes "dock" then Option.some .dock
  else if s = asciiBytes "confirm" then Option.some .confirm
  else Option.none

/-- Deserialize a `ToolCall`. -/
def toolCallFromJson (j : Json) : Option ToolCall :=
  match j with
  | .obj fs =>
    match jGet fs (asciiBytes "id"), jGet fs (asciiBytes "name"),
        jGet fs (asciiBytes "arguments"), jGet fs (asciiBytes "trust_level") with
    | Option.some jid, Option.some jname, Option.some jargs, Option.some jtl =>
      match (asStr jid).bind pUuid, asStr jname, (asStr jtl).bind trustLevelFromTag with
      | Option.some id0, Option.some name0, Option.some tl0 =>
          Option.some { id := id0, name := name0, arguments := jargs, trust_level := tl0 }
      | _, _, _ => Option.none
    | _, _, _, _ => Option.none
  | _ => Option.none

/-- Deserialize a `ToolResult`. -/
def toolResultFromJson (j : Json) : Option ToolResult :=
  match j with
  | .obj fs =>
    match jGet fs (asciiBytes "call_id"), jGet fs (asciiBytes "output"),
        jGet fs (asciiBytes "is_error") with
    | Option.some jcid, Option.some jout, Option.some jerr =>
      match (asStr jcid).bind pUuid, asStr jout, asBool jerr with
      | Option.some cid, Option.some out, Option.some e =>
          Option.some { call_id := cid, output := out, is_error := e }
      | _, _, _ => Option.none
    | _, _, _ => Option.none
  | _ => Option.none

/-- `Vec<T>` deserialization: every element must deserialize. -/
def optListMap {α β : Type} (f : α → Option β) : List α → Option (List β)
  | [] => Option.some []
  | x :: xs =>
    match f x, optListMap f xs with
    | Option.some y, Option.some ys => Option.some (y :: ys)
    | _, _ => Option.none

/-- Deserialize a `MessageContent` (internally tagged). -/
def contentFromJson (j : Json) : Option MessageContent :=
  match j with
  | .obj fs =>
    match jGet fs (asciiBytes "type") with
    | Option.some (.str tag) =>
      if tag = asciiBytes "text" then
        match jGet fs (asciiBytes "text") with
        | Option.some (.str t) => Option.some (.text t)
        | _ => Option.none
      else if tag = asciiBytes "tool_use" then
        match jGet fs (asciiBytes "tool_calls") with
        | Option.some (.arr es) => (optListMap toolCallFromJson es).map .toolUse
        | _ => Option.none
      else if tag = asciiBytes "tool_result" then
        match jGet fs (asciiBytes "results") with
        | Option.some (.arr es) => (optListMap toolResultFromJson es).map .toolResult
        | _ => Option.none
      else Option.none
    | _ => Option.none
  | _ => Option.none

/-- Deserialize a `ChatMessage`. -/
def chatMessageFromJson (j : Json) : Option ChatMessage :=
  match j with
  | .obj fs =>
    match jGet fs (asciiBytes "id"), jGet fs (asciiBytes "role"),
        jGet fs (asciiBytes "content"), jGet fs (asciiBytes "trust_level"),
        jGet fs (asciiBytes "timestamp") with
    | Option.some jid, Option.some jrole, Option.some jcontent,
        Option.some jtl, Option.some jts =>
      match (asStr jid).bind pUuid, (asStr jrole).bind roleFromTag,
          contentFromJson jcontent, (asStr jtl).bind trustLevelFromTag,
          (asStr jts).bind pTs with
      | Option.some i, Option.some r, Option.some c, Option.some tl, Option.some t =>
          Option.some { id := i, role := r, content := c, trust_level := tl, timestamp := t }
      | _, _, _, _, _ => Option.none
    | _, _, _, _, _ => Option.none
  | _ => Option.none

/-- Deserialize the payload-variant part of an envelope from its `type` tag
and the envelope's field map. -/
def payloadFromFields (tag : List Nat) (fs : List (List Nat × Json)) :
    Option IpcPayload :=
  if tag = asciiBytes "chat_request" then
    match jGet fs (asciiBytes "message"), jGet fs (asciiBytes "conversation_id") with
    | Option.some (.str msg), Option.some jcid =>
      match (asStr jcid).bind pUuid with
      | Option.some cid => Option.some (.chatRequest msg cid)
      | Option.none => Option.none
    | _, _ => Option.none
  else if tag = asciiBytes "chat_response" then
    match jGet fs (asciiBytes "message") with
    | Option.some jm => (chatMessageFromJson jm).map .chatResponse
    | Option.none => Option.none
  else if tag = asciiBytes "stream_chunk" then
    match jGet fs (asciiBytes "request_id"), jGet fs (asciiBytes "delta"),
        jGet fs (asciiBytes "done") with
    | Option.some jrid, Option.some (.str d), Option.some jdone =>
      match (asStr jrid).bind pUuid, asBool jdone with
      | Option.some rid, Option.some dn => Option.some (.streamChunk rid d dn)
      | _, _ => Option.none
    | _, _, _ => Option.none
  else if tag = asciiBytes "confirm_request" then
    match jGet fs (asciiBytes "action_id"), jGet fs (asciiBytes "action_type"),
        jGet fs (asciiBytes "description"), jGet fs (asciiBytes "command"),
        jGet fs (asciiBytes "trust_level") with
    | Option.some jaid, Option.some (.str aty), Option.some (.str desc),
        Option.some (.str cmd), Option.some jtl =>
      match (asStr jaid).bind pUuid, (asStr jtl).bind trustLevelFromTag with
      | Option.some aid, Option.some tl =>
          Option.some (.confirmRequest aid aty desc cmd tl)
      | _, _ => Option.none
    | _, _, _, _, _ => Option.none
  else if tag = asciiBytes "confirm_response" then
    match jGet fs (asciiBytes "action_id"), jGet fs (asciiBytes "approved"),
        jGet fs (asciiBytes "reason") with
    | Option.some jaid, Option.some japp, Option.some jreason =>
      match (asStr jaid).bind pUuid, asBool japp, asOptStr jreason with
      | Option.some aid, Option.some app, Option.some rsn =>
          Option.some (.confirmResponse aid app rsn)
      | _, _, _ => Option.none
    | _, _, _ => Option.none
  else if tag = asciiBytes "register" then
    match jGet fs (asciiBytes "client_type") with
    | Option.some jct =>
      match (asStr jct).bind clientTypeFromTag with
      | Option.some ct => Option.some (.register ct)
      | Option.none => Option.none
    | Option.none => Option.none
  else if tag = asciiBytes "register_ack" then
    match jGet fs (asciiBytes "success") with
    | Option.some jsucc =>
      match asBool jsucc with
      | Option.some sc => Option.some (.registerAck sc)
      | Option.none => Option.none
    | Option.none => Option.none
  else if tag = asciiBytes "system_info" then
    match jGet fs (asciiBytes "info") with
    | Option.some info => Option.some (.systemInfo info)
    | Option.none => Option.none
  else if tag = asciiBytes "error" then
    match jGet fs (asciiBytes "message"), jGet fs (asciiBytes "code") with
    | Option.some (.str msg), Option.some jcode =>
      match asOptStr jcode with
      | Option.some cd => Option.some (.error msg cd)
      | Option.none => Option.none
    | _, _ => Option.none
  else if tag = asciiBytes "ping" then Option.some .ping
  else if tag = asciiBytes "pong" then Option.some .pong
  else Option.none

/-- Deserialize a whole envelope. -/
def ipcFromJson (j : Json) : Option IpcMessage :=
  match j with
  | .obj fs =>
    match jGet fs (asciiBytes "id"), jGet fs (asciiBytes "type") with
    | Option.some jid, Option.some (.str tag) =>
      match (asStr jid).bind pUuid with
      | Option.some mid =>
          (payloadFromFields tag fs).map (fun p => { id := mid, payload := p })
      | Option.none => Option.none
    | _, _ => Option.none
  | _ => Option.none

/-- `serde_json::from_slice::<IpcMessage>`. -/
def deserializeIpc (bytes : List Nat) : Option IpcMessage :=
  (parseJsonBytes bytes).bind ipcFromJson

-- Well-formedness (what Rust's types guarantee by construction): every UUID
-- is 128-bit, every timestamp within chrono's printable calendar bounds.

/-- 128-bit bound of a modelled `Uuid`. -/
def uuidWfB (u : Uuid) : Bool := decide (u.val < 2 ^ 128)

/-- Well-formedness of a `MessageContent`. -/
def contentWfB : MessageContent → Bool
  | .text _ => true
  | .toolUse calls => calls.all (fun tc => uuidWfB tc.id)
  | .toolResult results => results.all (fun r => uuidWfB r.call_id)

/-- Well-formedness of a `ChatMessage`. -/
def chatMessageWfB (m : ChatMessage) : Bool :=
  uuidWfB m.id && tsWfB m.timestamp && contentWfB m.content

/-- Well-formedness of an `IpcPayload`. -/
def payloadWfB : IpcPayload → Bool
  | .chatRequest _ cid => uuidWfB cid
  | .chatResponse m => chatMessageWfB m
  | .streamChunk rid _ _ => uuidWfB rid
  | .confirmRequest aid _ _ _ _ => uuidWfB aid
  | .confirmResponse aid _ _ => uuidWfB aid
  | .register _ => true
  | .registerAck _ => true
  | .systemInfo _ => true
  | .error _ _ => true
  | .ping => true
  | .pong => true

/-- Well-formedness of an envelope. -/
def ipcWfB (m : IpcMessage) : Bool := uuidWfB m.id && payloadWfB m.payload

-- ---------------------------------------------------------------------------
-- Framing codec (aios-common/src/ipc/protocol.rs, LengthPrefixedCodec)
-- ---------------------------------------------------------------------------

/-- How the byte source behaves once its buffered bytes run out: clean EOF,
or a read failure.  (tokio's `read_exact` reports EOF before the buffer is
filled as an `UnexpectedEof` I/O error and passes other failures through.) -/
inductive StreamEnd where
  | eof
  | ioError
deriving DecidableEq, Repr

/-- An async byte source: the bytes still available, then `after`. -/
structure ByteStream where
  data : List Nat
  after : StreamEnd
deriving DecidableEq, Repr

/-- The error kinds `decode` distinguishes on a failed `read_exact`. -/
inductive ReadErr where
  | unexpectedEof
  | other
deriving DecidableEq, Repr

/-- `tokio::io::AsyncReadExt::read_exact`: reads exactly `n` bytes, or
fails with `UnexpectedEof` when the source ends first, or with the
underlying error on a read failure. -/
def readExact (s : ByteStream) (n : Nat) : Except ReadErr (List Nat × ByteStream) :=
  if n ≤ s.data.length then
    .ok (s.data.take n, { data := s.data.drop n, after := s.after })
  else
    match s.after with
    | .eof => .error .unexpectedEof
    | .ioError => .error .other

/-- `AiosError` from aios-common/src/error.rs (message payloads elided; the
claims only distinguish the variants). -/
inductive AiosError where
  | ipc
  | connectionClosed
  | protocol
  | provider
  | toolExecution
  | config
  | confirmTimeout
  | actionRejected
  | rateLimit
  | io
  | json
deriving DecidableEq, Repr

/-- `LengthPrefixedCodec::MAX_MESSAGE_SIZE`: 16 MiB. -/
def LengthPrefixedCodec.MAX_MESSAGE_SIZE : Nat := 16 * 1024 * 1024

/-- `u32::MAX` (the `u32::try_from` bound in `encode`). -/
def u32Max : Nat := 4294967295

/-- `u32::to_be_bytes`. -/
def u32BeBytes (n : Nat) : List Nat :=
  [n / 16777216 % 256, n / 65536 % 256, n / 256 % 256, n % 256]

/-- `u32::from_be_bytes` of an exactly-4-byte buffer. -/
def beU32 (bs : List Nat) : Nat :=
  match bs with
  | [b0, b1, b2, b3] => ((b0 * 256 + b1) * 256 + b2) * 256 + b3
  | _ => 0

/-- `LengthPrefixedCodec::encode`: serialize, bound-check the length
(`u32::try_from` then the 16 MiB cap), and prepend the 4-byte BE header. -/
def LengthPrefixedCodec.encode (msg : IpcMessage) : Except AiosError (List Nat) :=
  let json := serializeIpc msg
  if u32Max < json.length then .error .protocol
  else if LengthPrefixedCodec.MAX_MESSAGE_SIZE < json.length then .error .protocol
  else .ok (u32BeBytes json.length ++ json)

/-- `LengthPrefixedCodec::decode`: read the 4-byte header (EOF there →
`ConnectionClosed`, other failure → `Io`), check the cap, read the body
(any failure → `Io` via the `From<io::Error>` conversion), parse the JSON
(failure → `Json`). -/
def LengthPrefixedCodec.decode (s : ByteStream) :
    Except AiosError (IpcMessage × ByteStream) :=
  match readExact s 4 with
  | .error .unexpectedEof => .error .connectionClosed
  | .error .other => .error .io
  | .ok (len_buf, s1) =>
    let len := beU32 len_buf
    if LengthPrefixedCodec.MAX_MESSAGE_SIZE < len then .error .protocol
    else
      match readExact s1 len with
      | .error _ => .error .io
      | .ok (json_buf, s2) =>
        match deserializeIpc json_buf with
        | Option.some msg => .ok (msg, s2)
        | Option.none => .error .json

-- ---------------------------------------------------------------------------
-- Remaining definitions used by the proofs
-- ---------------------------------------------------------------------------

/-- In rendered JSON, the byte following a nested value is always a
separator or closing bracket (or the input ends); number parsing stops
exactly there. -/
def stopByteB : List Nat → Bool
  | [] => true
  | b :: _ => decide (b = 44 ∨ b = 93 ∨ b = 125)

/-- The audit-record kind the specification's outcome table assigns to one
`execute_tool_call` terminal outcome (spec 4.9 / C2): rate-limit denial →
rate_limited; rejection or missing confirm client → rejected; confirmation
timeout → timeout; IPC send failure or a raised tool error → error;
an executed call → success/error according to the tool's own result. -/
def expectedAuditKind (env : ExecEnv) (tool : ToolSpec) (st : ExecState) : AuditKind :=
  let execKind : AuditKind :=
    match env.execResult with
    | .ok _ => .success
    | .err _ => .error
  if tool.trust_requirement = .doubleConfirm ∧
      (st.rate_limiter.check_and_record env.now).1 = false then .rateLimited
  else if tool.trust_requirement ≠ .none then
    match (request_confirmation st.pending_confirms env.action_id env.confirm).1 with
    | .approved => execKind
    | .rejected => .rejected
    | .noClient => .rejected
    | .timeout => .timeout
    | .sendFailed => .error
  else execKind

/-- Structural induction principle for the nested inductive `Json`. -/
def Json.indOn {P : Json → Prop}
    (hnull : P .null) (hbool : ∀ b, P (.bool b)) (hnum : ∀ n, P (.num n))
    (hstr : ∀ s, P (.str s))
    (harr : ∀ xs, (∀ x ∈ xs, P x) → P (.arr xs))
    (hobj : ∀ fs, (∀ kv ∈ fs, P kv.2) → P (.obj fs)) : ∀ v, P v
  | .null => hnull
  | .bool b => hbool b
  | .num n => hnum n
  | .str s => hstr s
  | .arr xs =>
      harr xs (fun x hx => Json.indOn hnull hbool hnum hstr harr hobj x)
  | .obj fs =>
      hobj fs (fun kv hkv => Json.indOn hnull hbool hnum hstr harr hobj kv.2)
termination_by v => sizeOf v
decreasing_by
  · have := List.sizeOf_lt_of_mem hx
    simp only [Json.arr.sizeOf_spec]
    omega
  · have h1 := List.sizeOf_lt_of_mem hkv
    have h2 : sizeOf kv.2 < sizeOf kv := by
      obtain ⟨a, b⟩ := kv
      simp only [Prod.mk.sizeOf_spec]
      omega
    simp only [Json.obj.sizeOf_spec]
    omega

-- ===========================================================================
-- Theorems
-- ===========================================================================

-- ---------------------------------------------------------------------------
-- C9: kernel-state guards across indefinitely-suspending awaits
-- ---------------------------------------------------------------------------

/-- C9: the claim "no task ever holds the kernel state lock across an await
that can suspend indefinitely" fails on the code: the tool-execution loop of
`agentic_loop` holds a `state.read()` guard across the `execute_tool_call`
await, and `call_llm` / `force_text_response` hold a read guard across
`provider.complete(...)`.  (Code bug: the comment at router.rs lines 194-197
states the intent to avoid exactly this; for any tool whose trust
requirement is not `None`, `execute_tool_call` then blocks on
`state.write()` while the caller's read guard is live.) -/
theorem C9_lock_held_across_await :
    holdsGuardAcrossAwait tool_loop_call_events = true ∧
    holdsGuardAcrossAwait call_llm_events = true ∧
    holdsGuardAcrossAwait force_text_events = true := by decide

-- ---------------------------------------------------------------------------
-- C3: short-read classification in decode
-- ---------------------------------------------------------------------------

/-- C3 counterexample: a header short read of two bytes followed by EOF is
classified `ConnectionClosed`, not `Io` as the claim states (tokio's
`read_exact` reports every EOF before the buffer fills as `UnexpectedEof`,
and `decode` maps that kind to `ConnectionClosed` regardless of how many
header bytes arrived). -/
theorem C3_counterexample :
    LengthPrefixedCodec.decode { data := [0, 0], after := .eof } =
      .error .connectionClosed ∧
    LengthPrefixedCodec.decode { data := [0, 0], after := .eof } ≠
      .error .io := by
  refine ⟨rfl, ?_⟩
  intro h
  rw [show LengthPrefixedCodec.decode { data := [0, 0], after := .eof } =
      .error .connectionClosed from rfl] at h
  simp at h

/-- C3 amended: an EOF anywhere inside the 4-byte header (0-3 bytes
available) yields `ConnectionClosed`; a read failure yields `Io`. -/
theorem C3_short_read_classification (s : ByteStream) (h : s.data.length < 4) :
    LengthPrefixedCodec.decode s =
      .error (if s.after = .eof then .connectionClosed else .io) := by
  obtain ⟨data, after⟩ := s
  simp only at h
  cases after <;>
    simp [LengthPrefixedCodec.decode, readExact, show ¬ (4 ≤ data.length) from by omega]

/-- C3 witness: a 1-byte header followed by a read failure decodes to `Io`. -/
theorem C3_short_read_witness :
    LengthPrefixedCodec.decode { data := [0], after := .ioError } =
      .error (if ({ data := [0], after := .ioError } : ByteStream).after = .eof
              then .connectionClosed else .io) :=
  C3_short_read_classification { data := [0], after := .ioError } (by decide)

-- ---------------------------------------------------------------------------
-- C1: confirmation uniqueness and pending-entry removal
-- ---------------------------------------------------------------------------

/-- C1: every `request_confirmation` invocation reports exactly one of the
five outcomes, and on every path the pending-confirm entry for the freshly
allocated `action_id` is gone from the table before the outcome is
returned (removed by `request_confirmation` itself on the NoClient,
SendFailed, timeout and dropped-channel paths, and by the router's
`ConfirmResponse` arm on the answered path). -/
theorem C1_confirmation_uniqueness (pending : List Uuid) (action_id : Uuid)
    (env : ConfirmEnv) :
    action_id ∉ (request_confirmation pending action_id env).2 ∧
    ((request_confirmation pending action_id env).1 = .approved ∨
     (request_confirmation pending action_id env).1 = .rejected ∨
     (request_confirmation pending action_id env).1 = .timeout ∨
     (request_confirmation pending action_id env).1 = .noClient ∨
     (request_confirmation pending action_id env).1 = .sendFailed) := by
  obtain ⟨hc, so, reply⟩ := env
  have hrm : ∀ (l : List Uuid), action_id ∉ removePending l action_id := by
    intro l
    simp [removePending]
  constructor
  · cases hc <;> cases so <;>
      rcases reply with b | _ | _ <;>
      simp only [request_confirmation, route_confirm_response, Bool.not_true,
        Bool.not_false, if_true, if_false, Bool.false_eq_true] <;>
      first
        | exact hrm _
        | (cases b <;> simp <;> exact hrm _)
        | simp <;> exact hrm _
  · cases hc <;> cases so <;>
      rcases reply with b | _ | _ <;>
      first
        | (cases b <;> simp [request_confirmation])
        | simp [request_confirmation]

-- ---------------------------------------------------------------------------
-- C4: bounded LLM calls per ChatRequest
-- ---------------------------------------------------------------------------

/-- The loop makes at most one `complete` call per remaining iteration, plus
the final force-text call. -/
theorem agenticLoopCalls_le (reply : Nat → LlmReply) :
    ∀ (n calls : Nat), agenticLoopCalls reply calls n ≤ calls + n + 1 := by
  intro n
  induction n with
  | zero => intro calls; simp [agenticLoopCalls]
  | succ k ih =>
    intro calls
    cases hr : reply calls <;>
      simp only [agenticLoopCalls, hr] <;>
      first
        | omega
        | exact le_trans (ih (calls + 1)) (by omega)

/-- C4: with a provider configured, one `ChatRequest` causes at most 11
`provider.complete` calls (at most `MAX_TOOL_ITERATIONS = 10` in the
tool-bearing loop plus at most one force-text call); echo mode makes
none. -/
theorem C4_bounded_llm_calls (has_provider : Bool) (reply : Nat → LlmReply) :
    agentic_loop_llm_calls has_provider reply ≤ 11 := by
  cases has_provider
  · simp [agentic_loop_llm_calls]
  · simp only [agentic_loop_llm_calls, MAX_TOOL_ITERATIONS, Bool.not_true,
      Bool.false_eq_true, if_false]
    exact le_trans (agenticLoopCalls_le reply 10 0) (by omega)

-- ---------------------------------------------------------------------------
-- C2: audit completeness
-- ---------------------------------------------------------------------------

/-- C2: a tool call whose name misses the registry writes no audit record;
a call that reaches trust gating writes exactly one, whose kind follows the
terminal outcome (`expectedAuditKind`). -/
theorem C2_audit_completeness :
    (∀ (tc : ToolCall) (env : ExecEnv) (st : ExecState),
       env.tool = Option.none → (execute_tool_call tc env st).2.2 = []) ∧
    (∀ (tc : ToolCall) (env : ExecEnv) (st : ExecState) (tool : ToolSpec),
       env.tool = Option.some tool →
       (execute_tool_call tc env st).2.2.map AuditRecord.kind =
         [expectedAuditKind env tool st]) := by
  constructor
  · intro tc env st h
    simp [execute_tool_call, h]
  · intro tc env st tool htool
    obtain ⟨desc, treq⟩ := tool
    cases treq
    · -- TrustRequirement.none: straight to execute-and-audit
      cases hex : env.execResult <;>
        simp [execute_tool_call, htool, execute_and_audit, hex, expectedAuditKind,
          log_success, log_error]
    · -- TrustRequirement.confirm: no rate limiting, confirmation gate
      rcases hrc : request_confirmation st.pending_confirms env.action_id env.confirm
        with ⟨out, p⟩
      cases out <;>
        cases hex : env.execResult <;>
          simp [execute_tool_call, htool, execute_and_audit, hex, expectedAuditKind,
            hrc, log_success, log_error, log_rejected, log_timeout]
    · -- TrustRequirement.doubleConfirm: rate limit gate first
      cases hrate : (st.rate_limiter.check_and_record env.now).1
      · simp [execute_tool_call, htool, expectedAuditKind, hrate, log_rate_limited]
      · rcases hrc : request_confirmation st.pending_confirms env.action_id env.confirm
          with ⟨out, p⟩
        cases out <;>
          cases hex : env.execResult <;>
            simp [execute_tool_call, htool, execute_and_audit, hex, expectedAuditKind,
              hrate, hrc, log_success, log_error, log_rejected, log_timeout]

/-- C2 witness: a registered zero-trust tool whose execution succeeds writes
exactly one `success` audit record. -/
theorem C2_audit_witness :
    (execute_tool_call ⟨⟨0⟩, [], Json.null, .user⟩
      { tool := Option.some ⟨[], .none⟩, now := 0, logNow := ⟨0, 0, 0, 0, 0, 0, 0⟩,
        confirm := ⟨false, false, .timeout⟩, action_id := ⟨1⟩,
        execResult := .ok ⟨⟨0⟩, [], false⟩ }
      ⟨[], RateLimiter.new 3⟩).2.2.map AuditRecord.kind =
    [expectedAuditKind
      { tool := Option.some ⟨[], .none⟩, now := 0, logNow := ⟨0, 0, 0, 0, 0, 0, 0⟩,
        confirm := ⟨false, false, .timeout⟩, action_id := ⟨1⟩,
        execResult := .ok ⟨⟨0⟩, [], false⟩ }
      ⟨[], .none⟩ ⟨[], RateLimiter.new 3⟩] :=
  C2_audit_completeness.2 _ _ _ _ rfl

-- ---------------------------------------------------------------------------
-- C10: user_approved semantics of audit records
-- ---------------------------------------------------------------------------

/-- C10: every audit record `execute_tool_call` writes has
`user_approved = true` exactly when it came from `log_success` or
`log_error` — including the trust-requirement-`None` path, where no
confirmation was requested and the record still says `user_approved =
true`. -/
theorem C10_user_approved_semantics (tc : ToolCall) (env : ExecEnv) (st : ExecState) :
    (∀ rec ∈ (execute_tool_call tc env st).2.2,
       (rec.entry.user_approved = true ↔ (rec.kind = .success ∨ rec.kind = .error))) ∧
    (∀ tool, env.tool = Option.some tool → tool.trust_requirement = .none →
       (execute_tool_call tc env st).2.2.map (fun r => r.entry.user_approved) = [true]) := by
  constructor
  · intro rec hrec
    rcases htool : env.tool with _ | ⟨desc, treq⟩
    · simp [execute_tool_call, htool] at hrec
    · cases treq
      · cases hex : env.execResult <;>
          simp [execute_tool_call, htool, execute_and_audit, hex, log_success,
            log_error] at hrec <;>
          simp [hrec]
      · rcases hrc : request_confirmation st.pending_confirms env.action_id env.confirm
          with ⟨out, p⟩
        cases out <;>
          cases hex : env.execResult <;>
            simp [execute_tool_call, htool, execute_and_audit, hex, hrc, log_success,
              log_error, log_rejected, log_timeout] at hrec <;>
            simp [hrec]
      · cases hrate : (st.rate_limiter.check_and_record env.now).1
        · simp [execute_tool_call, htool, hrate, log_rate_limited] at hrec
          simp [hrec]
        · rcases hrc : request_confirmation st.pending_confirms env.action_id env.confirm
            with ⟨out, p⟩
          cases out <;>
            cases hex : env.execResult <;>
              simp [execute_tool_call, htool, execute_and_audit, hex, hrate, hrc,
                log_success, log_error, log_rejected, log_timeout] at hrec <;>
              simp [hrec]
  · intro tool htool htreq
    obtain ⟨desc, treq⟩ := tool
    simp only at htreq
    subst htreq
    cases hex : env.execResult <;>
      simp [execute_tool_call, htool, execute_and_audit, hex, log_success, log_error]

/-- C10 witness: a zero-trust tool that raised an execution error still gets
`user_approved = true`, matching its `error` kind. -/
theorem C10_user_approved_witness :
    (execute_tool_call ⟨⟨0⟩, [], Json.null, .user⟩
      { tool := Option.some ⟨[], .none⟩, now := 0, logNow := ⟨0, 0, 0, 0, 0, 0, 0⟩,
        confirm := ⟨false, false, .timeout⟩, action_id := ⟨1⟩,
        execResult := .err [] }
      ⟨[], RateLimiter.new 3⟩).2.2.map (fun r => r.entry.user_approved) = [true] :=
  (C10_user_approved_semantics _ _ _).2 ⟨[], .none⟩ rfl rfl

-- ---------------------------------------------------------------------------
-- C5: rate limiter sliding-window invariant
-- ---------------------------------------------------------------------------

/-- In a `≤`-sorted list, everything that survives the front eviction is at
or above the cutoff. -/
theorem sorted_dropWhile_ge (c : Nat) :
    ∀ (l : List Nat), List.Pairwise (· ≤ ·) l →
      ∀ ts ∈ l.dropWhile (fun ts => decide (ts < c)), c ≤ ts := by
  intro l
  induction l with
  | nil => simp
  | cons x t ih =>
    intro hp ts hts
    rw [List.dropWhile_cons] at hts
    by_cases hx : x < c
    · rw [if_pos (by simpa using hx)] at hts
      exact ih hp.of_cons ts hts
    · rw [if_neg (by simpa using hx)] at hts
      rcases List.mem_cons.mp hts with h | h
      · omega
      · have := (List.pairwise_cons.mp hp).1 ts h
        omega

/-- One `check_and_record` step preserves sortedness and the cap, and leaves
only timestamps within the last 60 seconds of this call's clock reading. -/
theorem check_and_record_step (rl : RateLimiter) (now : Nat)
    (hsort : List.Pairwise (· ≤ ·) rl.window)
    (hub : ∀ ts ∈ rl.window, ts ≤ now)
    (hlen : rl.window.length ≤ rl.max_per_minute) :
    List.Pairwise (· ≤ ·) (rl.check_and_record now).2.window ∧
    (∀ ts ∈ (rl.check_and_record now).2.window, now - 60 ≤ ts ∧ ts ≤ now) ∧
    (rl.check_and_record now).2.window.length ≤ rl.max_per_minute ∧
    (rl.check_and_record now).2.max_per_minute = rl.max_per_minute := by
  set c := (if 60 ≤ now then now - 60 else now) with hc
  have hcut : now - 60 ≤ c := by rw [hc]; split <;> omega
  set w := rl.window.dropWhile (fun ts => decide (ts < c)) with hw
  have hsub : w.Sublist rl.window := List.dropWhile_sublist _
  have hsort2 : List.Pairwise (· ≤ ·) w := hsort.sublist hsub
  have hge : ∀ ts ∈ w, c ≤ ts := sorted_dropWhile_ge c rl.window hsort
  have hub2 : ∀ ts ∈ w, ts ≤ now := fun ts hts => hub ts (hsub.mem hts)
  have hck : (rl.check_and_record now).2 =
      if rl.max_per_minute ≤ w.length then { rl with window := w }
      else { rl with window := w ++ [now] } := by
    simp only [RateLimiter.check_and_record]
    rw [← hc, ← hw]
    split <;> rfl
  rw [hck]
  split
  · exact ⟨hsort2, fun ts hts => ⟨le_trans hcut (hge ts hts), hub2 ts hts⟩,
      le_trans hsub.length_le hlen, rfl⟩
  · rename_i hfull
    refine ⟨?_, ?_, ?_, rfl⟩
    · rw [List.pairwise_append]
      exact ⟨hsort2, List.pairwise_singleton _ _,
        fun a ha b hb => by simp at hb; subst hb; exact hub2 a ha⟩
    · intro ts hts
      rcases List.mem_append.mp hts with h | h
      · exact ⟨le_trans hcut (hge ts h), hub2 ts h⟩
      · simp at h
        subst h
        omega
    · simp only [List.length_append, List.length_singleton]
      omega

/-- Folding a monotone trace keeps the invariant; the conclusion is about
the state right after the last call. -/
theorem runTrace_bounds :
    ∀ (nows : List Nat) (rl : RateLimiter) (t : Nat),
      List.Pairwise (· ≤ ·) (nows ++ [t]) →
      List.Pairwise (· ≤ ·) rl.window →
      (∀ ts ∈ rl.window, ∀ n ∈ nows ++ [t], ts ≤ n) →
      rl.window.length ≤ rl.max_per_minute →
      (∀ ts ∈ (rl.runTrace (nows ++ [t])).window, t - 60 ≤ ts ∧ ts ≤ t) ∧
      (rl.runTrace (nows ++ [t])).window.length ≤ rl.max_per_minute := by
  intro nows
  induction nows with
  | nil =>
    intro rl t _ h2 h3 h4
    have step := check_and_record_step rl t h2
      (fun ts hts => h3 ts hts t (by simp)) h4
    have hrt : rl.runTrace ([] ++ [t]) = (rl.check_and_record t).2 := rfl
    rw [hrt]
    exact ⟨step.2.1, step.2.2.1⟩
  | cons t0 rest ih =>
    intro rl t h1 h2 h3 h4
    have step := check_and_record_step rl t0 h2
      (fun ts hts => h3 ts hts t0 (by simp)) h4
    have h1' : List.Pairwise (· ≤ ·) (rest ++ [t]) := h1.of_cons
    have ht0 : ∀ n ∈ rest ++ [t], t0 ≤ n := (List.pairwise_cons.mp h1).1
    have h3' : ∀ ts ∈ (rl.check_and_record t0).2.window, ∀ n ∈ rest ++ [t], ts ≤ n :=
      fun ts hts n hn => le_trans (step.2.1 ts hts).2 (ht0 n hn)
    have h4' : (rl.check_and_record t0).2.window.length ≤
        (rl.check_and_record t0).2.max_per_minute := by
      rw [step.2.2.2]; exact step.2.2.1
    have := ih (rl.check_and_record t0).2 t h1' step.1 h3' h4'
    rw [step.2.2.2] at this
    have hrt : rl.runTrace ((t0 :: rest) ++ [t]) =
        ((rl.check_and_record t0).2).runTrace (rest ++ [t]) := rfl
    rw [hrt]
    exact this

/-- C5: along any monotone trace of `check_and_record` calls on a fresh
limiter, after each call the window holds only timestamps within the last
60 seconds of that call's clock reading and never exceeds the cap; and a
cap of zero denies every call without recording anything. -/
theorem C5_rate_limiter :
    (∀ (max_per_minute : Nat) (nows : List Nat) (t : Nat),
       List.Pairwise (· ≤ ·) (nows ++ [t]) →
         (∀ ts ∈ ((RateLimiter.new max_per_minute).runTrace (nows ++ [t])).window,
            t - 60 ≤ ts ∧ ts ≤ t) ∧
         ((RateLimiter.new max_per_minute).runTrace (nows ++ [t])).window.length ≤
           max_per_minute) ∧
    (∀ (rl : RateLimiter) (now : Nat), rl.max_per_minute = 0 →
       (rl.check_and_record now).1 = false ∧
       (rl.check_and_record now).2.window.Sublist rl.window) := by
  constructor
  · intro max_per_minute nows t h1
    exact runTrace_bounds nows (RateLimiter.new max_per_minute) t h1
      (by simp [RateLimiter.new]) (by simp [RateLimiter.new]) (by simp [RateLimiter.new])
  · intro rl now h0
    have hck : (rl.check_and_record now).1 = false ∧
        (rl.check_and_record now).2.window =
          rl.window.dropWhile
            (fun ts => decide (ts < if 60 ≤ now then now - 60 else now)) := by
      simp only [RateLimiter.check_and_record, h0]
      split <;>
        (rw [if_pos (Nat.zero_le _)]; exact ⟨rfl, rfl⟩)
    exact ⟨hck.1, hck.2 ▸ List.dropWhile_sublist _⟩

/-- C5 witness: the trace 5, 70 on a cap-1 limiter ends with a window inside
[10, 70] holding at most one entry. -/
theorem C5_rate_limiter_witness :
    (∀ ts ∈ ((RateLimiter.new 1).runTrace ([5] ++ [70])).window,
       70 - 60 ≤ ts ∧ ts ≤ 70) ∧
    ((RateLimiter.new 1).runTrace ([5] ++ [70])).window.length ≤ 1 :=
  C5_rate_limiter.1 1 [5] 70 (by simp)

-- ---------------------------------------------------------------------------
-- C7 / C8: UTF-8-safe truncation
-- ---------------------------------------------------------------------------

/-- Index 0 is always a char boundary. -/
theorem is_char_boundary_zero (s : List Nat) : is_char_boundary s 0 = true := by
  simp [is_char_boundary]

/-- The boundary search never moves the cut upward. -/
theorem floor_char_boundary_le (s : List Nat) :
    ∀ i, floor_char_boundary s i ≤ i := by
  intro i
  induction i with
  | zero => simp [floor_char_boundary]
  | succ k ih =>
    simp only [floor_char_boundary]
    split
    · exact le_refl _
    · exact le_trans ih (by omega)

/-- The boundary search lands on a char boundary. -/
theorem floor_char_boundary_isB (s : List Nat) :
    ∀ i, is_char_boundary s (floor_char_boundary s i) = true := by
  intro i
  induction i with
  | zero => simp [floor_char_boundary, is_char_boundary]
  | succ k ih =>
    simp only [floor_char_boundary]
    split
    · rename_i hb
      exact hb
    · exact ih

/-- An interior continuation byte is never a char boundary. -/
theorem boundary_cont_false {s : List Nat} {i bb : Nat}
    (hget : s[i]? = Option.some bb) (h1 : 128 ≤ bb) (h2 : bb ≤ 191) (h0 : i ≠ 0) :
    is_char_boundary s i = false := by
  simp [is_char_boundary, h0, hget]
  omega

/-- Peeling one leading byte shifts char boundaries down by one. -/
theorem boundary_drop_one (b : Nat) (t : List Nat) (i : Nat)
    (h : is_char_boundary (b :: t) (i + 1) = true) :
    is_char_boundary t i = true := by
  rcases i with _ | k
  · simp [is_char_boundary]
  · have hsk : (b :: t)[k + 1 + 1]? = t[k + 1]? := List.getElem?_cons_succ
    simp only [is_char_boundary, hsk] at h ⊢
    cases ht : t[k + 1]? with
    | none =>
      rw [ht] at h
      simp at h ⊢
      omega
    | some v =>
      rw [ht] at h
      simpa using h

/-- Concatenating well-formed UTF-8 strings stays well-formed. -/
theorem utf8Valid_append (a b : List Nat) (ha : Utf8Valid a) (hb : Utf8Valid b) :
    Utf8Valid (a ++ b) := by
  induction ha with
  | nil => exact hb
  | one h1 _ ih => exact .one h1 ih
  | two h1 h2 h3 h4 _ ih => exact .two h1 h2 h3 h4 ih
  | threeLow h1 h2 h3 h4 h5 _ ih => exact .threeLow h1 h2 h3 h4 h5 ih
  | threeMid h1 h2 h3 h4 h5 h6 _ ih => exact .threeMid h1 h2 h3 h4 h5 h6 ih
  | threeSur h1 h2 h3 h4 h5 _ ih => exact .threeSur h1 h2 h3 h4 h5 ih
  | threeHigh h1 h2 h3 h4 h5 h6 _ ih => exact .threeHigh h1 h2 h3 h4 h5 h6 ih
  | fourLow h1 h2 h3 h4 h5 h6 h7 _ ih => exact .fourLow h1 h2 h3 h4 h5 h6 h7 ih
  | fourMid h1 h2 h3 h4 h5 h6 h7 h8 _ ih => exact .fourMid h1 h2 h3 h4 h5 h6 h7 h8 ih
  | fourHigh h1 h2 h3 h4 h5 h6 h7 _ ih => exact .fourHigh h1 h2 h3 h4 h5 h6 h7 ih

/-- Cutting a well-formed UTF-8 string at a char boundary leaves the prefix
well-formed. -/
theorem utf8Valid_take (s : List Nat) (hval : Utf8Valid s) :
    ∀ i, is_char_boundary s i = true → Utf8Valid (s.take i) := by
  induction hval with
  | nil => intro i _; simp [List.take_nil]; exact .nil
  | @one b t h1 _ ih =>
    intro i hb
    rcases i with _ | k
    · exact .nil
    · exact .one h1 (ih k (boundary_drop_one b t k hb))
  | @two b1 b2 t h1 h2 h3 h4 _ ih =>
    intro i hb
    rcases i with _ | _ | k
    · exact .nil
    · simp [boundary_cont_false (show (b1 :: b2 :: t)[1]? = Option.some b2 by simp)
        h3 h4 (by omega)] at hb
    · exact .two h1 h2 h3 h4
        (ih k (boundary_drop_one _ _ _ (boundary_drop_one _ _ _ hb)))
  | @threeLow b1 b2 b3 t h1 h2 h3 h4 h5 _ ih =>
    intro i hb
    rcases i with _ | _ | _ | k
    · exact .nil
    · simp [boundary_cont_false (show (b1 :: b2 :: b3 :: t)[1]? = Option.some b2 by simp)
        (by omega) h3 (by omega)] at hb
    · simp [boundary_cont_false (show (b1 :: b2 :: b3 :: t)[2]? = Option.some b3 by simp)
        h4 h5 (by omega)] at hb
    · exact .threeLow h1 h2 h3 h4 h5
        (ih k (boundary_drop_one _ _ _ (boundary_drop_one _ _ _ (boundary_drop_one _ _ _ hb))))
  | @threeMid b1 b2 b3 t h1 h2 h3 h4 h5 h6 _ ih =>
    intro i hb
    rcases i with _ | _ | _ | k
    · exact .nil
    · simp [boundary_cont_false (show (b1 :: b2 :: b3 :: t)[1]? = Option.some b2 by simp)
        h3 h4 (by omega)] at hb
    · simp [boundary_cont_false (show (b1 :: b2 :: b3 :: t)[2]? = Option.some b3 by simp)
        h5 h6 (by omega)] at hb
    · exact .threeMid h1 h2 h3 h4 h5 h6
        (ih k (boundary_drop_one _ _ _ (boundary_drop_one _ _ _ (boundary_drop_one _ _ _ hb))))
  | @threeSur b1 b2 b3 t h1 h2 h3 h4 h5 _ ih =>
    intro i hb
    rcases i with _ | _ | _ | k
    · exact .nil
    · simp [boundary_cont_false (show (b1 :: b2 :: b3 :: t)[1]? = Option.some b2 by simp)
        h2 (by omega) (by omega)] at hb
    · simp [boundary_cont_false (show (b1 :: b2 :: b3 :: t)[2]? = Option.some b3 by simp)
        h4 h5 (by omega)] at hb
    · exact .threeSur h1 h2 h3 h4 h5
        (ih k (boundary_drop_one _ _ _ (boundary_drop_one _ _ _ (boundary_drop_one _ _ _ hb))))
  | @threeHigh b1 b2 b3 t h1 h2 h3 h4 h5 h6 _ ih =>
    intro i hb
    rcases i with _ | _ | _ | k
    · exact .nil
    · simp [boundary_cont_false (show (b1 :: b2 :: b3 :: t)[1]? = Option.some b2 by simp)
        h3 h4 (by omega)] at hb
    · simp [boundary_cont_false (show (b1 :: b2 :: b3 :: t)[2]? = Option.some b3 by simp)
        h5 h6 (by omega)] at hb
    · exact .threeHigh h1 h2 h3 h4 h5 h6
        (ih k (boundary_drop_one _ _ _ (boundary_drop_one _ _ _ (boundary_drop_one _ _ _ hb))))
  | @fourLow b1 b2 b3 b4 t h1 h2 h3 h4 h5 h6 h7 _ ih =>
    intro i hb
    rcases i with _ | _ | _ | _ | k
    · exact .nil
    · simp [boundary_cont_false
        (show (b1 :: b2 :: b3 :: b4 :: t)[1]? = Option.some b2 by simp)
        (by omega) h3 (by omega)] at hb
    · simp [boundary_cont_false
        (show (b1 :: b2 :: b3 :: b4 :: t)[2]? = Option.some b3 by simp)
        h4 h5 (by omega)] at hb
    · simp [boundary_cont_false
        (show (b1 :: b2 :: b3 :: b4 :: t)[3]? = Option.some b4 by simp)
        h6 h7 (by omega)] at hb
    · exact .fourLow h1 h2 h3 h4 h5 h6 h7
        (ih k (boundary_drop_one _ _ _ (boundary_drop_one _ _ _
          (boundary_drop_one _ _ _ (boundary_drop_one _ _ _ hb)))))
  | @fourMid b1 b2 b3 b4 t h1 h2 h3 h4 h5 h6 h7 h8 _ ih =>
    intro i hb
    rcases i with _ | _ | _ | _ | k
    · exact .nil
    · simp [boundary_cont_false
        (show (b1 :: b2 :: b3 :: b4 :: t)[1]? = Option.some b2 by simp)
        h3 h4 (by omega)] at hb
    · simp [boundary_cont_false
        (show (b1 :: b2 :: b3 :: b4 :: t)[2]? = Option.some b3 by simp)
        h5 h6 (by omega)] at hb
    · simp [boundary_cont_false
        (show (b1 :: b2 :: b3 :: b4 :: t)[3]? = Option.some b4 by simp)
        h7 h8 (by omega)] at hb
    · exact .fourMid h1 h2 h3 h4 h5 h6 h7 h8
        (ih k (boundary_drop_one _ _ _ (boundary_drop_one _ _ _
          (boundary_drop_one _ _ _ (boundary_drop_one _ _ _ hb)))))
  | @fourHigh b1 b2 b3 b4 t h1 h2 h3 h4 h5 h6 h7 _ ih =>
    intro i hb
    rcases i with _ | _ | _ | _ | k
    · exact .nil
    · simp [boundary_cont_false
        (show (b1 :: b2 :: b3 :: b4 :: t)[1]? = Option.some b2 by simp)
        h2 (by omega) (by omega)] at hb
    · simp [boundary_cont_false
        (show (b1 :: b2 :: b3 :: b4 :: t)[2]? = Option.some b3 by simp)
        h4 h5 (by omega)] at hb
    · simp [boundary_cont_false
        (show (b1 :: b2 :: b3 :: b4 :: t)[3]? = Option.some b4 by simp)
        h6 h7 (by omega)] at hb
    · exact .fourHigh h1 h2 h3 h4 h5 h6 h7
        (ih k (boundary_drop_one _ _ _ (boundary_drop_one _ _ _
          (boundary_drop_one _ _ _ (boundary_drop_one _ _ _ hb)))))

/-- The `"...[truncated]"` suffix is itself well-formed UTF-8 (pure ASCII). -/
theorem truncationSuffix_valid : Utf8Valid truncationSuffix := by
  rw [show truncationSuffix =
    [46, 46, 46, 91, 116, 114, 117, 110, 99, 97, 116, 101, 100, 93] from rfl]
  repeat first
    | exact Utf8Valid.nil
    | refine Utf8Valid.one (by norm_num) ?_

/-- C7: `truncate_output s 4096` returns well-formed UTF-8; it returns `s`
unchanged exactly when `s` is at most 4096 bytes, and otherwise cuts at a
char boundary at or below 4096 bytes and appends `"...[truncated]"`. -/
theorem C7_truncate_utf8_safety (s : List Nat) (h : Utf8Valid s) :
    Utf8Valid (truncate_output s 4096) ∧
    (s.length ≤ 4096 → truncate_output s 4096 = s) ∧
    (4096 < s.length → ∃ b, b ≤ 4096 ∧ is_char_boundary s b = true ∧
        truncate_output s 4096 = s.take b ++ truncationSuffix) := by
  by_cases hlen : s.length ≤ 4096
  · refine ⟨?_, fun _ => ?_, fun hc => absurd hc (by omega)⟩
    · rw [truncate_output, if_pos hlen]
      exact h
    · rw [truncate_output, if_pos hlen]
  · refine ⟨?_, fun hc => absurd hc hlen, fun _ => ?_⟩
    · rw [truncate_output, if_neg hlen]
      exact utf8Valid_append _ _
        (utf8Valid_take s h _ (floor_char_boundary_isB s 4096)) truncationSuffix_valid
    · exact ⟨floor_char_boundary s 4096, floor_char_boundary_le s 4096,
        floor_char_boundary_isB s 4096, by rw [truncate_output, if_neg hlen]⟩

/-- C7 witness: a one-byte ASCII string passes through untouched. -/
theorem C7_truncate_witness :
    Utf8Valid (truncate_output [97] 4096) ∧
    (([97] : List Nat).length ≤ 4096 → truncate_output [97] 4096 = [97]) ∧
    (4096 < ([97] : List Nat).length → ∃ b, b ≤ 4096 ∧
        is_char_boundary [97] b = true ∧
        truncate_output [97] 4096 = ([97] : List Nat).take b ++ truncationSuffix) :=
  C7_truncate_utf8_safety [97] (Utf8Valid.one (by norm_num) Utf8Valid.nil)

set_option maxRecDepth 100000 in
/-- C8 counterexample: a 4097-byte tool output produces a `log_success`
record whose `details` is 4110 bytes (4096 content bytes plus the 14-byte
suffix), exceeding the claimed 4096-byte bound. -/
theorem C8_details_counterexample :
    4096 < ((log_success ⟨0, 0, 0, 0, 0, 0, 0⟩ ⟨⟨0⟩, [], Json.null, .user⟩
      ⟨⟨0⟩, List.replicate 4097 97, false⟩).entry.details.getD []).length := by
  have hg : (List.replicate 4097 97)[4096]? = Option.some 97 := by
    rw [List.getElem?_replicate, if_pos (by norm_num)]
  have hb : is_char_boundary (List.replicate 4097 97) 4096 = true := by
    rw [is_char_boundary, if_neg (by norm_num), hg]
    norm_num
  have h1 : floor_char_boundary (List.replicate 4097 97) 4096 = 4096 := by
    rw [show (4096 : Nat) = 4095 + 1 from rfl, floor_char_boundary, if_pos hb]
  have hlen : ¬ ((List.replicate 4097 97).length ≤ 4096) := by
    rw [List.length_replicate]
    omega
  have h2 : truncate_output (List.replicate 4097 97) 4096 =
      (List.replicate 4097 97).take 4096 ++ truncationSuffix := by
    rw [truncate_output, if_neg hlen, h1]
  have h3 : truncationSuffix.length = 14 := rfl
  simp only [log_success, Option.getD, h2, List.length_append, List.length_take,
    List.length_replicate, h3]
  omega

/-- C8 amended: the `details` of a `log_success` record never exceeds 4110
UTF-8 bytes — 4096 content bytes plus the 14-byte `"...[truncated]"` suffix
— regardless of the tool output's size. -/
theorem C8_details_bound (now : Ts) (tc : ToolCall) (r : ToolResult) :
    ((log_success now tc r).entry.details.getD []).length ≤ 4110 := by
  have h1 : (truncate_output r.output 4096).length ≤ 4110 := by
    rw [truncate_output]
    split
    · rename_i hle
      omega
    · rw [List.length_append]
      have h2 := floor_char_boundary_le r.output 4096
      have h3 : (r.output.take (floor_char_boundary r.output 4096)).length ≤ 4096 := by
        rw [List.length_take]
        omega
      have h4 : truncationSuffix.length = 14 := rfl
      omega
  simpa [log_success, Option.getD] using h1

-- ---------------------------------------------------------------------------
-- C6: framing round-trip.  Scalar building blocks first: digits, integers.
-- ---------------------------------------------------------------------------

/-- Hex digit bytes decode back to their value. -/
theorem hexValOf_hexByteOf : ∀ d < 16, hexValOf (hexByteOf d) = Option.some d := by
  decide

/-- Decimal digit bytes decode back to their value. -/
theorem decValOf_decByteOf : ∀ d < 10, decValOf (decByteOf d) = Option.some d := by
  decide

/-- Reading back a fixed-width hex rendering. -/
theorem readHex_toHexDigits :
    ∀ (w acc n : Nat) (rest : List Nat), n < 16 ^ w →
      readHex w acc (toHexDigits w n ++ rest) = Option.some (acc * 16 ^ w + n, rest) := by
  intro w
  induction w with
  | zero =>
    intro acc n rest h
    have hn : n = 0 := by simpa using h
    subst hn
    simp [toHexDigits, readHex]
  | succ w ih =>
    intro acc n rest h
    have hdiv : n / 16 ^ w < 16 := by
      rw [Nat.div_lt_iff_lt_mul (Nat.pos_pow_of_pos w (by norm_num))]
      calc n < 16 ^ (w + 1) := h
        _ = 16 * 16 ^ w := by ring
    have hmod : n % 16 ^ w < 16 ^ w :=
      Nat.mod_lt _ (Nat.pos_pow_of_pos w (by norm_num))
    simp only [toHexDigits, List.cons_append, readHex, List.append_eq,
      hexValOf_hexByteOf (n / 16 ^ w) hdiv]
    rw [ih (acc * 16 + n / 16 ^ w) (n % 16 ^ w) rest hmod]
    have h2 : 16 ^ w * (n / 16 ^ w) + n % 16 ^ w = n := Nat.div_add_mod n (16 ^ w)
    have h3 : (acc * 16 + n / 16 ^ w) * 16 ^ w + n % 16 ^ w = acc * 16 ^ (w + 1) + n := by
      calc (acc * 16 + n / 16 ^ w) * 16 ^ w + n % 16 ^ w
          = acc * 16 ^ (w + 1) + (16 ^ w * (n / 16 ^ w) + n % 16 ^ w) := by ring
        _ = acc * 16 ^ (w + 1) + n := by rw [h2]
    rw [h3]

/-- Reading back a fixed-width decimal rendering. -/
theorem readDecFix_toDecDigits :
    ∀ (w acc n : Nat) (rest : List Nat), n < 10 ^ w →
      readDecFix w acc (toDecDigits w n ++ rest) = Option.some (acc * 10 ^ w + n, rest) := by
  intro w
  induction w with
  | zero =>
    intro acc n rest h
    have hn : n = 0 := by simpa using h
    subst hn
    simp [toDecDigits, readDecFix]
  | succ w ih =>
    intro acc n rest h
    have hdiv : n / 10 ^ w < 10 := by
      rw [Nat.div_lt_iff_lt_mul (Nat.pos_pow_of_pos w (by norm_num))]
      calc n < 10 ^ (w + 1) := h
        _ = 10 * 10 ^ w := by ring
    have hmod : n % 10 ^ w < 10 ^ w :=
      Nat.mod_lt _ (Nat.pos_pow_of_pos w (by norm_num))
    simp only [toDecDigits, List.cons_append, readDecFix, List.append_eq,
      decValOf_decByteOf (n / 10 ^ w) hdiv]
    rw [ih (acc * 10 + n / 10 ^ w) (n % 10 ^ w) rest hmod]
    have h2 : 10 ^ w * (n / 10 ^ w) + n % 10 ^ w = n := Nat.div_add_mod n (10 ^ w)
    have h3 : (acc * 10 + n / 10 ^ w) * 10 ^ w + n % 10 ^ w = acc * 10 ^ (w + 1) + n := by
      calc (acc * 10 + n / 10 ^ w) * 10 ^ w + n % 10 ^ w
          = acc * 10 ^ (w + 1) + (10 ^ w * (n / 10 ^ w) + n % 10 ^ w) := by ring
        _ = acc * 10 ^ (w + 1) + n := by rw [h2]
    rw [h3]

/-- The unpadded decimal rendering is nonempty, starts with a digit byte,
and starts above `0` for positive numbers. -/
theorem natToDec_head :
    ∀ n : Nat, ∃ d t, natToDec n = d :: t ∧ 48 ≤ d ∧ d ≤ 57 ∧ (1 ≤ n → 49 ≤ d) := by
  intro n
  induction n using Nat.strong_induction_on with
  | _ n ih =>
    rw [natToDec]
    split
    · rename_i h10
      exact ⟨48 + n, [], rfl, by omega, by omega, by omega⟩
    · rename_i h10
      obtain ⟨d, t, heq, hd1, hd2, hd3⟩ := ih (n / 10) (Nat.div_lt_self (by omega) (by omega))
      refine ⟨d, t ++ [48 + n % 10], ?_, hd1, hd2, fun _ => hd3 (by omega)⟩
      rw [heq]
      rfl

/-- Folding digits over an unpadded decimal rendering shifts the
accumulator. -/
theorem pDigitsR_natToDec :
    ∀ (n acc : Nat) (rest : List Nat),
      pDigitsR acc (natToDec n ++ rest) =
        pDigitsR (acc * 10 ^ (natToDec n).length + n) rest := by
  intro n
  induction n using Nat.strong_induction_on with
  | _ n ih =>
    intro acc rest
    rw [natToDec]
    split
    · rename_i h10
      have hdig : decValOf (48 + n) = Option.some n := by
        simp [decValOf]
        omega
      simp only [List.cons_append, List.nil_append, List.append_eq, pDigitsR, pDigits,
        hdig, List.length_cons, List.length_nil, pow_one]
      rfl
    · rename_i h10
      have hlt : n / 10 < n := Nat.div_lt_self (by omega) (by omega)
      rw [List.append_assoc, ih (n / 10) hlt acc ([48 + n % 10] ++ rest)]
      have hdig : decValOf (48 + n % 10) = Option.some (n % 10) := by
        have : n % 10 < 10 := Nat.mod_lt _ (by omega)
        simp [decValOf]
        omega
      simp only [List.cons_append, List.nil_append, List.append_eq, pDigitsR, pDigits,
        hdig]
      have hlen : (natToDec (n / 10) ++ [48 + n % 10]).length =
          (natToDec (n / 10)).length + 1 := by
        simp
      rw [hlen]
      have h2 : 10 * (n / 10) + n % 10 = n := Nat.div_add_mod n 10
      have h3 : (acc * 10 ^ (natToDec (n / 10)).length + n / 10) * 10 + n % 10 =
          acc * 10 ^ ((natToDec (n / 10)).length + 1) + n := by
        calc (acc * 10 ^ (natToDec (n / 10)).length + n / 10) * 10 + n % 10
            = acc * 10 ^ ((natToDec (n / 10)).length + 1) +
              (10 * (n / 10) + n % 10) := by ring
          _ = _ := by rw [h2]
      rw [h3]

/-- Digit folding stops at a separator or closing bracket. -/
theorem pDigitsR_stop :
    ∀ (acc : Nat) (rest : List Nat), stopByteB rest = true →
      pDigitsR acc rest = (acc, rest) := by
  intro acc rest h
  match rest with
  | [] => rfl
  | b :: t =>
    simp only [stopByteB, decide_eq_true_eq] at h
    have hnd : decValOf b = Option.none := by
      simp [decValOf]
      omega
    simp [pDigitsR, pDigits, hnd]

/-- Every escaped byte occupies at least one output byte. -/
theorem escapeByte_len_pos (b : Nat) : 1 ≤ (escapeByte b).length := by
  unfold escapeByte
  split_ifs <;> simp

/-- Unescaping inverts escaping: reading an escaped string body up to the
closing quote returns the original bytes.  Any `fuel` above the body length
works. -/
theorem pStr_escapeBytes (s : List Nat) :
    ∀ (rest : List Nat) (fuel : Nat), (escapeBytes s).length + 1 ≤ fuel →
      pStr fuel (escapeBytes s ++ 34 :: rest) = Option.some (s, rest) := by
  induction s with
  | nil =>
    intro rest fuel hf
    obtain ⟨f, rfl⟩ : ∃ f, fuel = f + 1 := ⟨fuel - 1, by omega⟩
    simp [escapeBytes, pStr]
  | cons b t ih =>
    intro rest fuel hf
    have hlb := escapeByte_len_pos b
    have hflow : (escapeBytes (b :: t)).length + 1 ≤ fuel := hf
    rw [show escapeBytes (b :: t) = escapeByte b ++ escapeBytes t from rfl,
      List.length_append] at hflow
    obtain ⟨f, rfl⟩ : ∃ f, fuel = f + 1 := ⟨fuel - 1, by omega⟩
    have hfi : (escapeBytes t).length + 1 ≤ f := by omega
    show pStr (f + 1) (escapeBytes (b :: t) ++ 34 :: rest) = Option.some (b :: t, rest)
    rw [show escapeBytes (b :: t) = escapeByte b ++ escapeBytes t from rfl,
      List.append_assoc]
    by_cases h1 : b = 34
    · subst h1
      simp [pStr, escapeByte, unescapeByte, ih rest f hfi]
    · by_cases h2 : b = 92
      · subst h2
        simp [pStr, escapeByte, unescapeByte, ih rest f hfi]
      · by_cases h3 : b = 8
        · subst h3
          simp [pStr, escapeByte, unescapeByte, ih rest f hfi]
        · by_cases h4 : b = 9
          · subst h4
            simp [pStr, escapeByte, unescapeByte, ih rest f hfi]
          · by_cases h5 : b = 10
            · subst h5
              simp [pStr, escapeByte, unescapeByte, ih rest f hfi]
            · by_cases h6 : b = 12
              · subst h6
                simp [pStr, escapeByte, unescapeByte, ih rest f hfi]
              · by_cases h7 : b = 13
                · subst h7
                  simp [pStr, escapeByte, unescapeByte, ih rest f hfi]
                · by_cases h8 : b < 32
                  · have hd1 : hexValOf (hexByteOf (b / 16)) = Option.some (b / 16) :=
                      hexValOf_hexByteOf _ (by omega)
                    have hd2 : hexValOf (hexByteOf (b % 16)) = Option.some (b % 16) :=
                      hexValOf_hexByteOf _ (by omega)
                    have h128 : b < 128 := by omega
                    have hval : b / 16 * 16 + b % 16 = b := by omega
                    have hno1 : ¬ (55296 ≤ b ∧ b ≤ 56319) := by omega
                    have hno2 : ¬ (56320 ≤ b ∧ b ≤ 57343) := by omega
                    have h48 : hexValOf 48 = Option.some 0 := rfl
                    simp [pStr, escapeByte, h1, h2, h3, h4, h5, h6, h7, h8,
                      h48, hd1, hd2, hval, hno1, hno2, utf8EncodeCp, h128,
                      ih rest f hfi]
                  · simp [pStr, escapeByte, h1, h2, h3, h4, h5, h6, h7, h8,
                      ih rest f hfi]

/-- `pUuid` on five hex groups of the widths the renderer emits. -/
theorem pUuid_concat (a b c d e : Nat) (ha : a < 16 ^ 8) (hb : b < 16 ^ 4)
    (hc : c < 16 ^ 4) (hd : d < 16 ^ 4) (he : e < 16 ^ 12) :
    pUuid (toHexDigits 8 a ++ (45 :: (toHexDigits 4 b ++ (45 :: (toHexDigits 4 c ++
        (45 :: (toHexDigits 4 d ++ (45 :: toHexDigits 12 e)))))))) =
      Option.some ⟨(((a * 16 ^ 4 + b) * 16 ^ 4 + c) * 16 ^ 4 + d) * 16 ^ 12 + e⟩ := by
  have e1 := readHex_toHexDigits 8 0 a
    (45 :: (toHexDigits 4 b ++ (45 :: (toHexDigits 4 c ++
      (45 :: (toHexDigits 4 d ++ (45 :: toHexDigits 12 e))))))) ha
  have e2 := readHex_toHexDigits 4 a b
    (45 :: (toHexDigits 4 c ++ (45 :: (toHexDigits 4 d ++ (45 :: toHexDigits 12 e))))) hb
  have e3 := readHex_toHexDigits 4 (a * 16 ^ 4 + b) c
    (45 :: (toHexDigits 4 d ++ (45 :: toHexDigits 12 e))) hc
  have e4 := readHex_toHexDigits 4 ((a * 16 ^ 4 + b) * 16 ^ 4 + c) d
    (45 :: toHexDigits 12 e) hd
  have e5 := readHex_toHexDigits 12 (((a * 16 ^ 4 + b) * 16 ^ 4 + c) * 16 ^ 4 + d) e [] he
  simp only [Nat.zero_mul, Nat.zero_add] at e1
  rw [List.append_nil] at e5
  simp only [pUuid, e1, e2, e3, e4, e5]

/-- Parsing back the hyphenated lowercase-hex rendering of a 128-bit UUID. -/
theorem pUuid_uuidRender (u : Uuid) (h : uuidWfB u = true) :
    pUuid (uuidRender u) = Option.some u := by
  obtain ⟨v⟩ := u
  simp only [uuidWfB, decide_eq_true_eq] at h
  have p96 : (0 : Nat) < 2 ^ 96 := by positivity
  have g1 : v / 2 ^ 96 < 16 ^ 8 := by
    rw [Nat.div_lt_iff_lt_mul p96]
    calc v < 2 ^ 128 := h
      _ = 16 ^ 8 * 2 ^ 96 := by norm_num
  have g2 : v / 2 ^ 80 % 2 ^ 16 < 16 ^ 4 := by
    have := Nat.mod_lt (v / 2 ^ 80) (show (0:Nat) < 2 ^ 16 by positivity)
    calc v / 2 ^ 80 % 2 ^ 16 < 2 ^ 16 := this
      _ = 16 ^ 4 := by norm_num
  have g3 : v / 2 ^ 64 % 2 ^ 16 < 16 ^ 4 := by
    have := Nat.mod_lt (v / 2 ^ 64) (show (0:Nat) < 2 ^ 16 by positivity)
    calc v / 2 ^ 64 % 2 ^ 16 < 2 ^ 16 := this
      _ = 16 ^ 4 := by norm_num
  have g4 : v / 2 ^ 48 % 2 ^ 16 < 16 ^ 4 := by
    have := Nat.mod_lt (v / 2 ^ 48) (show (0:Nat) < 2 ^ 16 by positivity)
    calc v / 2 ^ 48 % 2 ^ 16 < 2 ^ 16 := this
      _ = 16 ^ 4 := by norm_num
  have g5 : v % 2 ^ 48 < 16 ^ 12 := by
    have := Nat.mod_lt v (show (0:Nat) < 2 ^ 48 by positivity)
    calc v % 2 ^ 48 < 2 ^ 48 := this
      _ = 16 ^ 12 := by norm_num
  have hshape : uuidRender ⟨v⟩ =
      toHexDigits 8 (v / 2 ^ 96) ++ (45 :: (toHexDigits 4 (v / 2 ^ 80 % 2 ^ 16) ++
        (45 :: (toHexDigits 4 (v / 2 ^ 64 % 2 ^ 16) ++ (45 :: (toHexDigits 4
          (v / 2 ^ 48 % 2 ^ 16) ++ (45 :: toHexDigits 12 (v % 2 ^ 48)))))))) := by
    rw [uuidRender]
    simp [List.append_assoc]
  rw [hshape, pUuid_concat _ _ _ _ _ g1 g2 g3 g4 g5]
  have hacc : ((((v / 2 ^ 96) * 16 ^ 4 + v / 2 ^ 80 % 2 ^ 16) * 16 ^ 4 +
      v / 2 ^ 64 % 2 ^ 16) * 16 ^ 4 + v / 2 ^ 48 % 2 ^ 16) * 16 ^ 12 +
      v % 2 ^ 48 = v := by
    rw [show (16 : Nat) ^ 4 = 2 ^ 16 from by norm_num,
      show (16 : Nat) ^ 12 = 2 ^ 48 from by norm_num]
    omega
  rw [hacc]

/-- Reading back a fixed-width fraction-digit run that stops at `Z`. -/
theorem readFracDigits_toDecDigits (w : Nat) :
    ∀ (v cnt acc : Nat), v < 10 ^ w →
      readFracDigits (toDecDigits w v ++ [90]) cnt acc =
        (cnt + w, acc * 10 ^ w + v, [90]) := by
  induction w with
  | zero =>
    intro v cnt acc hv
    have hv0 : v = 0 := by simpa using hv
    subst hv0
    simp [toDecDigits, readFracDigits, decValOf]
  | succ w ih =>
    intro v cnt acc hv
    have hdiv : v / 10 ^ w < 10 := by
      rw [Nat.div_lt_iff_lt_mul (Nat.pos_pow_of_pos w (by norm_num))]
      calc v < 10 ^ (w + 1) := hv
        _ = 10 * 10 ^ w := by ring
    have hmod : v % 10 ^ w < 10 ^ w :=
      Nat.mod_lt _ (Nat.pos_pow_of_pos w (by norm_num))
    simp only [toDecDigits, List.cons_append, List.append_eq, readFracDigits,
      decValOf_decByteOf (v / 10 ^ w) hdiv]
    rw [ih (v % 10 ^ w) (cnt + 1) (acc * 10 + v / 10 ^ w) hmod]
    have h2 : 10 ^ w * (v / 10 ^ w) + v % 10 ^ w = v := Nat.div_add_mod v (10 ^ w)
    have h3 : (acc * 10 + v / 10 ^ w) * 10 ^ w + v % 10 ^ w = acc * 10 ^ (w + 1) + v := by
      calc (acc * 10 + v / 10 ^ w) * 10 ^ w + v % 10 ^ w
          = acc * 10 ^ (w + 1) + (10 ^ w * (v / 10 ^ w) + v % 10 ^ w) := by ring
        _ = acc * 10 ^ (w + 1) + v := by rw [h2]
    rw [h3]
    have h4 : cnt + 1 + w = cnt + (w + 1) := by omega
    rw [h4]

/-- Parsing back the serialized RFC 3339 timestamp. -/
theorem pTs_tsRender (t : Ts) (h : tsWfB t = true) : pTs (tsRender t) = Option.some t := by
  obtain ⟨y, mo, d, hh, mi, se, na⟩ := t
  have hbounds := h
  simp only [tsWfB, decide_eq_true_eq] at hbounds
  have p4 : (10 : Nat) ^ 4 = 10000 := by norm_num
  have p2 : (10 : Nat) ^ 2 = 100 := by norm_num
  have b1 : y < 10 ^ 4 := by omega
  have b2 : mo < 10 ^ 2 := by omega
  have b3 : d < 10 ^ 2 := by omega
  have b4 : hh < 10 ^ 2 := by omega
  have b5 : mi < 10 ^ 2 := by omega
  have b6 : se < 10 ^ 2 := by omega
  have hshape : tsRender ⟨y, mo, d, hh, mi, se, na⟩ =
      toDecDigits 4 y ++ (45 :: (toDecDigits 2 mo ++ (45 :: (toDecDigits 2 d ++
        (84 :: (toDecDigits 2 hh ++ (58 :: (toDecDigits 2 mi ++ (58 ::
          (toDecDigits 2 se ++ (tsFrac na ++ [90]))))))))))) := by
    rw [tsRender]
    simp [List.append_assoc]
  rw [hshape]
  have e1 := readDecFix_toDecDigits 4 0 y
    (45 :: (toDecDigits 2 mo ++ (45 :: (toDecDigits 2 d ++ (84 ::
      (toDecDigits 2 hh ++ (58 :: (toDecDigits 2 mi ++ (58 ::
        (toDecDigits 2 se ++ (tsFrac na ++ [90]))))))))))) b1
  have e2 := readDecFix_toDecDigits 2 0 mo
    (45 :: (toDecDigits 2 d ++ (84 :: (toDecDigits 2 hh ++ (58 ::
      (toDecDigits 2 mi ++ (58 :: (toDecDigits 2 se ++ (tsFrac na ++ [90]))))))))) b2
  have e3 := readDecFix_toDecDigits 2 0 d
    (84 :: (toDecDigits 2 hh ++ (58 :: (toDecDigits 2 mi ++ (58 ::
      (toDecDigits 2 se ++ (tsFrac na ++ [90]))))))) b3
  have e4 := readDecFix_toDecDigits 2 0 hh
    (58 :: (toDecDigits 2 mi ++ (58 :: (toDecDigits 2 se ++ (tsFrac na ++ [90]))))) b4
  have e5 := readDecFix_toDecDigits 2 0 mi
    (58 :: (toDecDigits 2 se ++ (tsFrac na ++ [90]))) b5
  have e6 := readDecFix_toDecDigits 2 0 se (tsFrac na ++ [90]) b6
  simp only [Nat.zero_mul, Nat.zero_add] at e1 e2 e3 e4 e5 e6
  simp only [pTs, e1, e2, e3, e4, e5, e6]
  by_cases hna0 : na = 0
  · subst hna0
    rw [show tsFrac 0 = [] from rfl, List.nil_append]
    simp only []
    rw [if_pos h]
  · by_cases hna6 : na % 1000000 = 0
    · have hq : na / 1000000 < 10 ^ 3 := by
        rw [show (10 : Nat) ^ 3 = 1000 from by norm_num]
        omega
      have hval : na / 1000000 * 10 ^ (9 - 3) = na := by
        rw [show (10 : Nat) ^ (9 - 3) = 1000000 from by norm_num]
        omega
      rw [show tsFrac na = 46 :: toDecDigits 3 (na / 1000000) from by
        rw [tsFrac, if_neg hna0, if_pos hna6]]
      simp only [List.cons_append, readFracDigits_toDecDigits 3 (na / 1000000) 0 0 hq,
        Nat.zero_mul, Nat.zero_add]
      rw [if_pos (show 1 ≤ 3 ∧ 3 ≤ 9 by norm_num), hval, if_pos h]
    · by_cases hna3 : na % 1000 = 0
      · have hq : na / 1000 < 10 ^ 6 := by
          rw [show (10 : Nat) ^ 6 = 1000000 from by norm_num]
          omega
        have hval : na / 1000 * 10 ^ (9 - 6) = na := by
          rw [show (10 : Nat) ^ (9 - 6) = 1000 from by norm_num]
          omega
        rw [show tsFrac na = 46 :: toDecDigits 6 (na / 1000) from by
          rw [tsFrac, if_neg hna0, if_neg hna6, if_pos hna3]]
        simp only [List.cons_append, readFracDigits_toDecDigits 6 (na / 1000) 0 0 hq,
          Nat.zero_mul, Nat.zero_add]
        rw [if_pos (show 1 ≤ 6 ∧ 6 ≤ 9 by norm_num), hval, if_pos h]
      · have hq : na < 10 ^ 9 := by
          rw [show (10 : Nat) ^ 9 = 1000000000 from by norm_num]
          omega
        have hval : na * 10 ^ (9 - 9) = na := by norm_num
        rw [show tsFrac na = 46 :: toDecDigits 9 na from by
          rw [tsFrac, if_neg hna0, if_neg hna6, if_neg hna3]]
        simp only [List.cons_append, readFracDigits_toDecDigits 9 na 0 0 hq,
          Nat.zero_mul, Nat.zero_add]
        rw [if_pos (show 1 ≤ 9 ∧ 9 ≤ 9 by norm_num), hval, if_pos h]

/-- The byte spelling of the literal `null`. -/
theorem aNull : asciiBytes "null" = 110 :: [117, 108, 108] := rfl

/-- The byte spelling of the literal `true`. -/
theorem aTrue : asciiBytes "true" = 116 :: [114, 117, 101] := rfl

/-- The byte spelling of the literal `false`. -/
theorem aFalse : asciiBytes "false" = 102 :: [97, 108, 115, 101] := rfl

/-- Stripping a literal prefix off exactly that prefix plus a rest
succeeds and returns the rest. -/
theorem stripPfxR_append (pat rest : List Nat) :
    stripPfxR pat (pat ++ rest) = Option.some rest := by
  have h : (pat ++ rest).take pat.length = pat ∧ pat.length ≤ (pat ++ rest).length :=
    ⟨by simp, by simp⟩
  unfold stripPfxR stripPfx
  rw [dif_pos h]
  simp

/-- A literal prefix cannot match an input whose first byte differs. -/
theorem stripPfxR_head_ne (p0 : Nat) (ptail : List Nat) (b : Nat) (hne : b ≠ p0)
    (t : List Nat) : stripPfxR (p0 :: ptail) (b :: t) = Option.none := by
  have h : ¬((b :: t).take (p0 :: ptail).length = p0 :: ptail ∧
      (p0 :: ptail).length ≤ (b :: t).length) := by
    rintro ⟨h1, -⟩
    rw [List.length_cons, List.take_succ_cons] at h1
    injection h1 with h1a
    exact hne h1a
  unfold stripPfxR stripPfx
  rw [dif_neg h]
  rfl

/-- A literal prefix fails against an input beginning with a different
literal of at least the prefix's length. -/
theorem stripPfxR_ne (pat other rest : List Nat) (hlen : pat.length ≤ other.length)
    (hne : other.take pat.length ≠ pat) :
    stripPfxR pat (other ++ rest) = Option.none := by
  have htake : (other ++ rest).take pat.length = other.take pat.length :=
    List.take_append_of_le_length hlen
  have h : ¬((other ++ rest).take pat.length = pat ∧
      pat.length ≤ (other ++ rest).length) := by
    rintro ⟨h1, -⟩
    exact hne (htake ▸ h1)
  unfold stripPfxR stripPfx
  rw [dif_neg h]
  rfl

/-- Folding one digit byte steps the accumulator. -/
theorem pDigitsR_cons (acc b d : Nat) (t : List Nat) (h : decValOf b = Option.some d) :
    pDigitsR acc (b :: t) = pDigitsR (acc * 10 + d) t := by
  simp only [pDigitsR, pDigits, h]

/-- Every rendering starts with a byte that is neither a comma nor a
closing bracket, so the array/object lookahead never mistakes a value
start for a terminator. -/
theorem renderJson_head (v : Json) :
    ∃ b bs, renderJson v = b :: bs ∧ b ≠ 44 ∧ b ≠ 93 ∧ b ≠ 125 := by
  cases v with
  | null => exact ⟨110, [117, 108, 108], rfl, by omega, by omega, by omega⟩
  | bool b =>
    cases b
    · exact ⟨102, [97, 108, 115, 101], rfl, by omega, by omega, by omega⟩
    · exact ⟨116, [114, 117, 101], rfl, by omega, by omega, by omega⟩
  | num n =>
    cases n with
    | ofNat m =>
      obtain ⟨d, t, heq, hd1, hd2, -⟩ := natToDec_head m
      refine ⟨d, t, ?_, by omega, by omega, by omega⟩
      simp only [renderJson, renderInt]
      rw [if_neg (show ¬ Int.ofNat m < 0 by
        exact Int.not_lt.mpr (Int.ofNat_le.mpr (Nat.zero_le m)))]
      rw [show (Int.ofNat m).natAbs = m from rfl, heq]
    | negSucc m =>
      refine ⟨45, natToDec (m + 1), ?_, by omega, by omega, by omega⟩
      simp only [renderJson, renderInt]
      rw [if_pos (Int.negSucc_lt_zero m), Int.natAbs_negSucc]
  | str s => exact ⟨34, escapeBytes s ++ [34], rfl, by omega, by omega, by omega⟩
  | arr xs =>
    cases xs with
    | nil => exact ⟨91, [93], rfl, by omega, by omega, by omega⟩
    | cons x t =>
      refine ⟨91, (renderJson x ++ renderItemsRest t) ++ [93], ?_,
        by omega, by omega, by omega⟩
      simp only [renderJson, List.cons_append]
  | obj fs =>
    cases fs with
    | nil => exact ⟨123, [125], rfl, by omega, by omega, by omega⟩
    | cons g t =>
      refine ⟨123, (renderField g ++ renderFieldsRest t) ++ [125], ?_,
        by omega, by omega, by omega⟩
      simp only [renderJson, List.cons_append]

/-- Renderings are never empty. -/
theorem renderJson_length_pos (v : Json) : 1 ≤ (renderJson v).length := by
  obtain ⟨b, bs, heq, -, -, -⟩ := renderJson_head v
  simp [heq]

/-- Completeness of the value parser on rendered output: parsing the
rendering of a value followed by a separator, a closing bracket, or end of
input returns exactly that value and the rest, for any fuel of at least
twice the input length. -/
theorem pVal_render (v : Json) :
    ∀ (rest : List Nat) (fuel : Nat), stopByteB rest = true →
      2 * (renderJson v ++ rest).length ≤ fuel →
      pVal fuel (renderJson v ++ rest) = Option.some (v, rest) := by
  induction v using Json.indOn with
  | hnull =>
    intro rest fuel hstop hfuel
    have hf1 : 1 ≤ fuel := by
      have hp := renderJson_length_pos Json.null
      rw [List.length_append] at hfuel
      omega
    obtain ⟨f, rfl⟩ : ∃ f, fuel = f + 1 := ⟨fuel - 1, by omega⟩
    simp only [renderJson, pVal, stripPfxR_append]
  | hbool b =>
    intro rest fuel hstop hfuel
    have hf1 : 1 ≤ fuel := by
      have hp := renderJson_length_pos (Json.bool b)
      rw [List.length_append] at hfuel
      omega
    obtain ⟨f, rfl⟩ : ∃ f, fuel = f + 1 := ⟨fuel - 1, by omega⟩
    cases b
    · simp only [renderJson, pVal,
        stripPfxR_ne (asciiBytes "null") (asciiBytes "false") rest (by decide) (by decide),
        stripPfxR_ne (asciiBytes "true") (asciiBytes "false") rest (by decide) (by decide),
        stripPfxR_append]
    · simp only [renderJson, pVal,
        stripPfxR_ne (asciiBytes "null") (asciiBytes "true") rest (by decide) (by decide),
        stripPfxR_append]
  | hnum n =>
    intro rest fuel hstop hfuel
    have hf1 : 1 ≤ fuel := by
      have hp := renderJson_length_pos (Json.num n)
      rw [List.length_append] at hfuel
      omega
    obtain ⟨f, rfl⟩ : ∃ f, fuel = f + 1 := ⟨fuel - 1, by omega⟩
    cases n with
    | ofNat m =>
      have hsh : renderJson (.num (Int.ofNat m)) = natToDec m := by
        simp only [renderJson, renderInt]
        rw [if_neg (show ¬ Int.ofNat m < 0 by
          exact Int.not_lt.mpr (Int.ofNat_le.mpr (Nat.zero_le m))),
          show (Int.ofNat m).natAbs = m from rfl]
      by_cases hm : m = 0
      · subst hm
        have h0 : natToDec 0 = [48] := by rw [natToDec]; norm_num
        rw [hsh, h0, List.singleton_append]
        have e1 : stripPfxR (asciiBytes "null") (48 :: rest) = Option.none := by
          rw [aNull]; exact stripPfxR_head_ne _ _ _ (by omega) _
        have e2 : stripPfxR (asciiBytes "true") (48 :: rest) = Option.none := by
          rw [aTrue]; exact stripPfxR_head_ne _ _ _ (by omega) _
        have e3 : stripPfxR (asciiBytes "false") (48 :: rest) = Option.none := by
          rw [aFalse]; exact stripPfxR_head_ne _ _ _ (by omega) _
        simp +decide only [pVal, e1, e2, e3, if_true, if_false]
        cases rest with
        | nil => rfl
        | cons b2 t2 =>
          simp only [stopByteB, decide_eq_true_eq] at hstop
          have hnd : decValOf b2 = Option.none := by
            simp only [decValOf]
            rw [if_neg (by omega)]
          simp only [hnd]
          rfl
      · obtain ⟨dd, ds, heq, hd1, hd2, hd3⟩ := natToDec_head m
        have hdd : 49 ≤ dd := hd3 (by omega)
        rw [hsh, heq, List.cons_append]
        have e1 : stripPfxR (asciiBytes "null") (dd :: (ds ++ rest)) = Option.none := by
          rw [aNull]; exact stripPfxR_head_ne _ _ _ (by omega) _
        have e2 : stripPfxR (asciiBytes "true") (dd :: (ds ++ rest)) = Option.none := by
          rw [aTrue]; exact stripPfxR_head_ne _ _ _ (by omega) _
        have e3 : stripPfxR (asciiBytes "false") (dd :: (ds ++ rest)) = Option.none := by
          rw [aFalse]; exact stripPfxR_head_ne _ _ _ (by omega) _
        simp +decide only [pVal, e1, e2, e3, if_true, if_false]
        rw [if_neg (by omega), if_neg (by omega), if_neg (by omega), if_neg (by omega),
          if_neg (by omega)]
        have hdec : decValOf dd = Option.some (dd - 48) := by
          simp only [decValOf]
          rw [if_pos (by omega)]
        simp only [hdec]
        have h1 := pDigitsR_natToDec m 0 rest
        rw [heq, List.cons_append, pDigitsR_cons 0 dd (dd - 48) (ds ++ rest) hdec,
          pDigitsR_stop _ rest hstop] at h1
        norm_num at h1
        rw [h1]
        rfl
    | negSucc m =>
      have hsh : renderJson (.num (Int.negSucc m)) = 45 :: natToDec (m + 1) := by
        simp only [renderJson, renderInt]
        rw [if_pos (Int.negSucc_lt_zero m), Int.natAbs_negSucc]
      obtain ⟨dd, ds, heq, hd1, hd2, hd3⟩ := natToDec_head (m + 1)
      have hdd : 49 ≤ dd := hd3 (by omega)
      rw [hsh, List.cons_append, heq, List.cons_append]
      have e1 : stripPfxR (asciiBytes "null") (45 :: (dd :: (ds ++ rest))) =
          Option.none := by
        rw [aNull]; exact stripPfxR_head_ne _ _ _ (by omega) _
      have e2 : stripPfxR (asciiBytes "true") (45 :: (dd :: (ds ++ rest))) =
          Option.none := by
        rw [aTrue]; exact stripPfxR_head_ne _ _ _ (by omega) _
      have e3 : stripPfxR (asciiBytes "false") (45 :: (dd :: (ds ++ rest))) =
          Option.none := by
        rw [aFalse]; exact stripPfxR_head_ne _ _ _ (by omega) _
      conv_lhs => simp +decide only [pVal, e1, e2, e3, if_true, if_false]
      rw [if_neg (show ¬ dd = 48 by omega)]
      have hdec : decValOf dd = Option.some (dd - 48) := by
        simp only [decValOf]
        rw [if_pos (by omega)]
      simp only [hdec]
      have h1 := pDigitsR_natToDec (m + 1) 0 rest
      rw [heq, List.cons_append, pDigitsR_cons 0 dd (dd - 48) (ds ++ rest) hdec,
        pDigitsR_stop _ rest hstop] at h1
      norm_num at h1
      rw [h1]
      have hneg : -(((m + 1 : Nat)) : Int) = Int.negSucc m := by
        rw [Int.negSucc_eq]
        push_cast
        ring
      have hfin : (Option.some (Json.num (-(((m + 1 : Nat)) : Int)), rest) :
          Option (Json × List Nat)) = Option.some (Json.num (Int.negSucc m), rest) := by
        rw [hneg]
      exact hfin
  | hstr s =>
    intro rest fuel hstop hfuel
    have hsh : renderJson (.str s) ++ rest = 34 :: (escapeBytes s ++ (34 :: rest)) := by
      simp [renderJson, List.append_assoc]
    rw [hsh] at hfuel ⊢
    have hf1 : 1 ≤ fuel := by
      simp only [List.length_cons] at hfuel
      omega
    obtain ⟨f, rfl⟩ : ∃ f, fuel = f + 1 := ⟨fuel - 1, by omega⟩
    have e1 : stripPfxR (asciiBytes "null") (34 :: (escapeBytes s ++ (34 :: rest))) =
        Option.none := by
      rw [aNull]; exact stripPfxR_head_ne _ _ _ (by omega) _
    have e2 : stripPfxR (asciiBytes "true") (34 :: (escapeBytes s ++ (34 :: rest))) =
        Option.none := by
      rw [aTrue]; exact stripPfxR_head_ne _ _ _ (by omega) _
    have e3 : stripPfxR (asciiBytes "false") (34 :: (escapeBytes s ++ (34 :: rest))) =
        Option.none := by
      rw [aFalse]; exact stripPfxR_head_ne _ _ _ (by omega) _
    have hps : pStr f (escapeBytes s ++ 34 :: rest) = Option.some (s, rest) := by
      apply pStr_escapeBytes
      simp only [List.length_cons, List.length_append] at hfuel
      omega
    simp +decide only [pVal, e1, e2, e3, hps, if_true, if_false]
  | harr xs ih =>
    intro rest fuel hstop hfuel
    cases xs with
    | nil =>
      have hsh : renderJson (.arr ([] : List Json)) ++ rest = 91 :: (93 :: rest) := by
        simp [renderJson]
      rw [hsh] at hfuel ⊢
      have hf1 : 1 ≤ fuel := by
        simp only [List.length_cons] at hfuel
        omega
      obtain ⟨f, rfl⟩ : ∃ f, fuel = f + 1 := ⟨fuel - 1, by omega⟩
      have e1 : stripPfxR (asciiBytes "null") (91 :: (93 :: rest)) = Option.none := by
        rw [aNull]; exact stripPfxR_head_ne _ _ _ (by omega) _
      have e2 : stripPfxR (asciiBytes "true") (91 :: (93 :: rest)) = Option.none := by
        rw [aTrue]; exact stripPfxR_head_ne _ _ _ (by omega) _
      have e3 : stripPfxR (asciiBytes "false") (91 :: (93 :: rest)) = Option.none := by
        rw [aFalse]; exact stripPfxR_head_ne _ _ _ (by omega) _
      simp +decide only [pVal, e1, e2, e3, if_true, if_false]
    | cons x xs2 =>
      have hitems : ∀ (l : List Json), (∀ y ∈ l, ∀ (r2 : List Nat) (f2 : Nat),
            stopByteB r2 = true → 2 * (renderJson y ++ r2).length ≤ f2 →
            pVal f2 (renderJson y ++ r2) = Option.some (y, r2)) →
          ∀ (z : Json), (∀ (r2 : List Nat) (f2 : Nat),
            stopByteB r2 = true → 2 * (renderJson z ++ r2).length ≤ f2 →
            pVal f2 (renderJson z ++ r2) = Option.some (z, r2)) →
          ∀ (r3 : List Nat) (f3 : Nat), stopByteB r3 = true →
            2 * (renderJson z ++ (renderItemsRest l ++ (93 :: r3))).length + 1 ≤ f3 →
            pItems f3 (renderJson z ++ (renderItemsRest l ++ (93 :: r3))) =
              Option.some (z :: l, r3) := by
        intro l
        induction l with
        | nil =>
          intro hl z hz r3 f3 hstop3 hf3
          obtain ⟨f4, rfl⟩ : ∃ f4, f3 = f4 + 1 := ⟨f3 - 1, by omega⟩
          simp only [renderItemsRest, List.nil_append] at hf3 ⊢
          have hz1 : pVal f4 (renderJson z ++ (93 :: r3)) =
              Option.some (z, 93 :: r3) := hz (93 :: r3) f4 rfl (by omega)
          simp only [pItems, hz1]
        | cons y ys ihl =>
          intro hl z hz r3 f3 hstop3 hf3
          obtain ⟨f4, rfl⟩ : ∃ f4, f3 = f4 + 1 := ⟨f3 - 1, by omega⟩
          have hsh2 : renderItemsRest (y :: ys) ++ (93 :: r3) =
              44 :: (renderJson y ++ (renderItemsRest ys ++ (93 :: r3))) := by
            simp [renderItemsRest, List.append_assoc]
          rw [hsh2] at hf3 ⊢
          have hlz := renderJson_length_pos z
          have hly := renderJson_length_pos y
          have hz1 : pVal f4 (renderJson z ++
              (44 :: (renderJson y ++ (renderItemsRest ys ++ (93 :: r3))))) =
              Option.some (z, 44 :: (renderJson y ++ (renderItemsRest ys ++ (93 :: r3)))) :=
            hz (44 :: (renderJson y ++ (renderItemsRest ys ++ (93 :: r3)))) f4 rfl
              (by simp only [List.length_append, List.length_cons] at hf3 ⊢; omega)
          have hrec : pItems f4 (renderJson y ++ (renderItemsRest ys ++ (93 :: r3))) =
              Option.some (y :: ys, r3) := by
            apply ihl (fun y2 hy2 => hl y2 (List.mem_cons_of_mem _ hy2)) y
              (hl y (List.mem_cons_self _ _)) r3 f4 hstop3
            simp only [List.length_append, List.length_cons] at hf3 ⊢
            omega
          simp only [pItems, hz1, hrec]
      have hsh : renderJson (.arr (x :: xs2)) ++ rest =
          91 :: (renderJson x ++ (renderItemsRest xs2 ++ (93 :: rest))) := by
        simp [renderJson, List.append_assoc]
      rw [hsh] at hfuel ⊢
      have hf1 : 1 ≤ fuel := by
        simp only [List.length_cons] at hfuel
        omega
      obtain ⟨f, rfl⟩ : ∃ f, fuel = f + 1 := ⟨fuel - 1, by omega⟩
      have e1 : stripPfxR (asciiBytes "null")
          (91 :: (renderJson x ++ (renderItemsRest xs2 ++ (93 :: rest)))) =
          Option.none := by
        rw [aNull]; exact stripPfxR_head_ne _ _ _ (by omega) _
      have e2 : stripPfxR (asciiBytes "true")
          (91 :: (renderJson x ++ (renderItemsRest xs2 ++ (93 :: rest)))) =
          Option.none := by
        rw [aTrue]; exact stripPfxR_head_ne _ _ _ (by omega) _
      have e3 : stripPfxR (asciiBytes "false")
          (91 :: (renderJson x ++ (renderItemsRest xs2 ++ (93 :: rest)))) =
          Option.none := by
        rw [aFalse]; exact stripPfxR_head_ne _ _ _ (by omega) _
      obtain ⟨b0, bs, heqx, hb44, hb93, hb125⟩ := renderJson_head x
      simp +decide only [pVal, e1, e2, e3, if_true, if_false]
      rw [heqx, List.cons_append]
      simp only []
      rw [if_neg hb93, ← List.cons_append, ← heqx]
      have hrec : pItems f (renderJson x ++ (renderItemsRest xs2 ++ (93 :: rest))) =
          Option.some (x :: xs2, rest) := by
        apply hitems xs2 (fun y hy => ih y (List.mem_cons_of_mem _ hy)) x
          (ih x (List.mem_cons_self _ _)) rest f hstop
        simp only [List.length_cons] at hfuel
        omega
      rw [hrec]
  | hobj fs ih =>
    intro rest fuel hstop hfuel
    cases fs with
    | nil =>
      have hsh : renderJson (.obj ([] : List (List Nat × Json))) ++ rest =
          123 :: (125 :: rest) := by
        simp [renderJson]
      rw [hsh] at hfuel ⊢
      have hf1 : 1 ≤ fuel := by
        simp only [List.length_cons] at hfuel
        omega
      obtain ⟨f, rfl⟩ : ∃ f, fuel = f + 1 := ⟨fuel - 1, by omega⟩
      have e1 : stripPfxR (asciiBytes "null") (123 :: (125 :: rest)) = Option.none := by
        rw [aNull]; exact stripPfxR_head_ne _ _ _ (by omega) _
      have e2 : stripPfxR (asciiBytes "true") (123 :: (125 :: rest)) = Option.none := by
        rw [aTrue]; exact stripPfxR_head_ne _ _ _ (by omega) _
      have e3 : stripPfxR (asciiBytes "false") (123 :: (125 :: rest)) = Option.none := by
        rw [aFalse]; exact stripPfxR_head_ne _ _ _ (by omega) _
      simp +decide only [pVal, e1, e2, e3, if_true, if_false]
    | cons g gs =>
      obtain ⟨k0, v0⟩ := g
      have hfields : ∀ (l : List (List Nat × Json)),
          (∀ g2 ∈ l, ∀ (r2 : List Nat) (f2 : Nat),
            stopByteB r2 = true → 2 * (renderJson g2.2 ++ r2).length ≤ f2 →
            pVal f2 (renderJson g2.2 ++ r2) = Option.some (g2.2, r2)) →
          ∀ (k : List Nat) (w : Json), (∀ (r2 : List Nat) (f2 : Nat),
            stopByteB r2 = true → 2 * (renderJson w ++ r2).length ≤ f2 →
            pVal f2 (renderJson w ++ r2) = Option.some (w, r2)) →
          ∀ (r3 : List Nat) (f3 : Nat), stopByteB r3 = true →
            2 * (renderField (k, w) ++ (renderFieldsRest l ++ (125 :: r3))).length + 1 ≤ f3 →
            pFields f3 (renderField (k, w) ++ (renderFieldsRest l ++ (125 :: r3))) =
              Option.some ((k, w) :: l, r3) := by
        intro l
        induction l with
        | nil =>
          intro hl k w hw r3 f3 hstop3 hf3
          obtain ⟨f4, rfl⟩ : ∃ f4, f3 = f4 + 1 := ⟨f3 - 1, by omega⟩
          have hsh3 : renderField (k, w) ++
              (renderFieldsRest ([] : List (List Nat × Json)) ++ (125 :: r3)) =
              34 :: (escapeBytes k ++ (34 :: (58 :: (renderJson w ++ (125 :: r3))))) := by
            simp [renderField, renderFieldsRest, List.append_assoc]
          rw [hsh3] at hf3 ⊢
          have hk : pStr f4 (escapeBytes k ++ 34 :: (58 :: (renderJson w ++ (125 :: r3)))) =
              Option.some (k, 58 :: (renderJson w ++ (125 :: r3))) := by
            apply pStr_escapeBytes
            simp only [List.length_cons, List.length_append] at hf3
            omega
          have hw1 : pVal f4 (renderJson w ++ (125 :: r3)) =
              Option.some (w, 125 :: r3) := hw (125 :: r3) f4 rfl
            (by simp only [List.length_cons, List.length_append] at hf3 ⊢; omega)
          simp only [pFields, hk, hw1]
        | cons g2 gs2 ihl =>
          intro hl k w hw r3 f3 hstop3 hf3
          obtain ⟨k2, w2⟩ := g2
          obtain ⟨f4, rfl⟩ : ∃ f4, f3 = f4 + 1 := ⟨f3 - 1, by omega⟩
          have hsh3 : renderField (k, w) ++
              (renderFieldsRest ((k2, w2) :: gs2) ++ (125 :: r3)) =
              34 :: (escapeBytes k ++ (34 :: (58 :: (renderJson w ++
                (44 :: (renderField (k2, w2) ++ (renderFieldsRest gs2 ++ (125 :: r3)))))))) := by
            simp [renderField, renderFieldsRest, List.append_assoc]
          rw [hsh3] at hf3 ⊢
          have hlw := renderJson_length_pos w
          have hk : pStr f4 (escapeBytes k ++ 34 :: (58 :: (renderJson w ++
              (44 :: (renderField (k2, w2) ++ (renderFieldsRest gs2 ++ (125 :: r3))))))) =
              Option.some (k, 58 :: (renderJson w ++
                (44 :: (renderField (k2, w2) ++ (renderFieldsRest gs2 ++ (125 :: r3)))))) := by
            apply pStr_escapeBytes
            simp only [List.length_cons, List.length_append] at hf3
            omega
          have hw1 : pVal f4 (renderJson w ++
              (44 :: (renderField (k2, w2) ++ (renderFieldsRest gs2 ++ (125 :: r3))))) =
              Option.some (w, 44 :: (renderField (k2, w2) ++
                (renderFieldsRest gs2 ++ (125 :: r3)))) :=
            hw (44 :: (renderField (k2, w2) ++ (renderFieldsRest gs2 ++ (125 :: r3)))) f4 rfl
              (by simp only [List.length_cons, List.length_append] at hf3 ⊢; omega)
          have hrec : pFields f4 (renderField (k2, w2) ++
              (renderFieldsRest gs2 ++ (125 :: r3))) =
              Option.some ((k2, w2) :: gs2, r3) := by
            apply ihl (fun g3 hg3 => hl g3 (List.mem_cons_of_mem _ hg3)) k2 w2
              (hl (k2, w2) (List.mem_cons_self _ _)) r3 f4 hstop3
            simp only [List.length_cons, List.length_append] at hf3 ⊢
            omega
          simp only [pFields, hk, hw1, hrec]
      have hsh : renderJson (.obj ((k0, v0) :: gs)) ++ rest =
          123 :: (renderField (k0, v0) ++ (renderFieldsRest gs ++ (125 :: rest))) := by
        simp [renderJson, List.append_assoc]
      rw [hsh] at hfuel ⊢
      have hf1 : 1 ≤ fuel := by
        simp only [List.length_cons] at hfuel
        omega
      obtain ⟨f, rfl⟩ : ∃ f, fuel = f + 1 := ⟨fuel - 1, by omega⟩
      have e1 : stripPfxR (asciiBytes "null")
          (123 :: (renderField (k0, v0) ++ (renderFieldsRest gs ++ (125 :: rest)))) =
          Option.none := by
        rw [aNull]; exact stripPfxR_head_ne _ _ _ (by omega) _
      have e2 : stripPfxR (asciiBytes "true")
          (123 :: (renderField (k0, v0) ++ (renderFieldsRest gs ++ (125 :: rest)))) =
          Option.none := by
        rw [aTrue]; exact stripPfxR_head_ne _ _ _ (by omega) _
      have e3 : stripPfxR (asciiBytes "false")
          (123 :: (renderField (k0, v0) ++ (renderFieldsRest gs ++ (125 :: rest)))) =
          Option.none := by
        rw [aFalse]; exact stripPfxR_head_ne _ _ _ (by omega) _
      have heqf : renderField (k0, v0) =
          34 :: ((escapeBytes k0 ++ [34, 58]) ++ renderJson v0) := by
        simp [renderField]
      simp +decide only [pVal, e1, e2, e3, if_true, if_false]
      rw [heqf, List.cons_append]
      simp only []
      rw [if_neg (by omega), ← List.cons_append, ← heqf]
      have hrec : pFields f (renderField (k0, v0) ++
          (renderFieldsRest gs ++ (125 :: rest))) =
          Option.some ((k0, v0) :: gs, rest) := by
        apply hfields gs (fun g2 hg2 => ih g2 (List.mem_cons_of_mem _ hg2)) k0 v0
          (ih (k0, v0) (List.mem_cons_self _ _)) rest f hstop
        simp only [List.length_cons] at hfuel
        omega
      rw [hrec]

/-- Round trip at the byte level: `from_slice` recovers any value
`to_vec` produced. -/
theorem parseJsonBytes_render (v : Json) :
    parseJsonBytes (renderJson v) = Option.some v := by
  unfold parseJsonBytes
  have h := pVal_render v [] (2 * (renderJson v).length + 1) rfl
    (by simp)
  rw [List.append_nil] at h
  rw [h]

/-- The snake_case `TrustLevel` tags deserialize back. -/
theorem trustLevelTag_inv (tl : TrustLevel) :
    trustLevelFromTag (trustLevelTag tl) = Option.some tl := by
  cases tl <;> rfl

/-- The snake_case `Role` tags deserialize back. -/
theorem roleTag_inv (r : Role) : roleFromTag (roleTag r) = Option.some r := by
  cases r <;> rfl

/-- The snake_case `ClientType` tags deserialize back. -/
theorem clientTypeTag_inv (c : ClientType) :
    clientTypeFromTag (clientTypeTag c) = Option.some c := by
  cases c <;> rfl

/-- `Option<String>` fields round-trip through `null`-or-string. -/
theorem asOptStr_optStrToJson (o : Option (List Nat)) :
    asOptStr (optStrToJson o) = Option.some o := by
  cases o <;> rfl

/-- `ToolCall` round trip. -/
theorem toolCallFromJson_toJson (tc : ToolCall) (h : uuidWfB tc.id = true) :
    toolCallFromJson (toolCallToJson tc) = Option.some tc := by
  simp +decide only [toolCallToJson, toolCallFromJson, jGet, if_true, if_false,
    asStr, Option.some_bind, pUuid_uuidRender tc.id h, trustLevelTag_inv]

/-- `ToolResult` round trip. -/
theorem toolResultFromJson_toJson (tr : ToolResult) (h : uuidWfB tr.call_id = true) :
    toolResultFromJson (toolResultToJson tr) = Option.some tr := by
  simp +decide only [toolResultToJson, toolResultFromJson, jGet, if_true, if_false,
    asStr, asBool, Option.some_bind, pUuid_uuidRender tr.call_id h]

/-- `Vec<ToolCall>` round trip. -/
theorem optListMap_toolCalls (l : List ToolCall) :
    l.all (fun tc => uuidWfB tc.id) = true →
    optListMap toolCallFromJson (l.map toolCallToJson) = Option.some l := by
  induction l with
  | nil => intro _; rfl
  | cons a t iht =>
    intro hl
    simp only [List.all_cons, Bool.and_eq_true] at hl
    simp only [List.map_cons, optListMap, toolCallFromJson_toJson a hl.1, iht hl.2]

/-- `Vec<ToolResult>` round trip. -/
theorem optListMap_toolResults (l : List ToolResult) :
    l.all (fun r => uuidWfB r.call_id) = true →
    optListMap toolResultFromJson (l.map toolResultToJson) = Option.some l := by
  induction l with
  | nil => intro _; rfl
  | cons a t iht =>
    intro hl
    simp only [List.all_cons, Bool.and_eq_true] at hl
    simp only [List.map_cons, optListMap, toolResultFromJson_toJson a hl.1, iht hl.2]

/-- `MessageContent` round trip (internally tagged). -/
theorem contentFromJson_toJson (c : MessageContent) (h : contentWfB c = true) :
    contentFromJson (contentToJson c) = Option.some c := by
  cases c with
  | text t =>
    simp +decide only [contentToJson, contentFromJson, jGet, if_true, if_false]
  | toolUse calls =>
    simp only [contentWfB] at h
    simp +decide only [contentToJson, contentFromJson, jGet, if_true, if_false,
      optListMap_toolCalls calls h, Option.map_some']
  | toolResult results =>
    simp only [contentWfB] at h
    simp +decide only [contentToJson, contentFromJson, jGet, if_true, if_false,
      optListMap_toolResults results h, Option.map_some']

/-- `ChatMessage` round trip. -/
theorem chatMessageFromJson_toJson (m : ChatMessage) (h : chatMessageWfB m = true) :
    chatMessageFromJson (chatMessageToJson m) = Option.some m := by
  simp only [chatMessageWfB, Bool.and_eq_true] at h
  obtain ⟨⟨hid, hts⟩, hc⟩ := h
  simp +decide only [chatMessageToJson, chatMessageFromJson, jGet, if_true, if_false,
    asStr, Option.some_bind, pUuid_uuidRender m.id hid, roleTag_inv,
    contentFromJson_toJson m.content hc, trustLevelTag_inv,
    pTs_tsRender m.timestamp hts]

/-- Envelope round trip at the JSON-tree level, for every payload variant. -/
theorem ipcFromJson_toJson (m : IpcMessage) (h : ipcWfB m = true) :
    ipcFromJson (ipcToJson m) = Option.some m := by
  obtain ⟨mid, p⟩ := m
  simp only [ipcWfB, Bool.and_eq_true] at h
  obtain ⟨hid, hp⟩ := h
  cases p with
  | chatRequest msg cid =>
    simp only [payloadWfB] at hp
    simp +decide only [ipcToJson, payloadFields, ipcFromJson, payloadFromFields, jGet,
      if_true, if_false, asStr, Option.some_bind, pUuid_uuidRender mid hid,
      pUuid_uuidRender cid hp, Option.map_some']
  | chatResponse cm =>
    simp only [payloadWfB] at hp
    simp +decide only [ipcToJson, payloadFields, ipcFromJson, payloadFromFields, jGet,
      if_true, if_false, asStr, Option.some_bind, pUuid_uuidRender mid hid,
      chatMessageFromJson_toJson cm hp, Option.map_some']
  | streamChunk rid delta done =>
    simp only [payloadWfB] at hp
    simp +decide only [ipcToJson, payloadFields, ipcFromJson, payloadFromFields, jGet,
      if_true, if_false, asStr, asBool, Option.some_bind, pUuid_uuidRender mid hid,
      pUuid_uuidRender rid hp, Option.map_some']
  | confirmRequest aid aty desc cmd tl =>
    simp only [payloadWfB] at hp
    simp +decide only [ipcToJson, payloadFields, ipcFromJson, payloadFromFields, jGet,
      if_true, if_false, asStr, Option.some_bind, pUuid_uuidRender mid hid,
      pUuid_uuidRender aid hp, trustLevelTag_inv, Option.map_some']
  | confirmResponse aid app rsn =>
    simp only [payloadWfB] at hp
    simp +decide only [ipcToJson, payloadFields, ipcFromJson, payloadFromFields, jGet,
      if_true, if_false, asStr, asBool, Option.some_bind, pUuid_uuidRender mid hid,
      pUuid_uuidRender aid hp, asOptStr_optStrToJson, Option.map_some']
  | register ct =>
    simp +decide only [ipcToJson, payloadFields, ipcFromJson, payloadFromFields, jGet,
      if_true, if_false, asStr, Option.some_bind, pUuid_uuidRender mid hid,
      clientTypeTag_inv, Option.map_some']
  | registerAck sc =>
    simp +decide only [ipcToJson, payloadFields, ipcFromJson, payloadFromFields, jGet,
      if_true, if_false, asStr, asBool, Option.some_bind, pUuid_uuidRender mid hid,
      Option.map_some']
  | systemInfo info =>
    simp +decide only [ipcToJson, payloadFields, ipcFromJson, payloadFromFields, jGet,
      if_true, if_false, asStr, Option.some_bind, pUuid_uuidRender mid hid,
      Option.map_some']
  | error msg code =>
    simp +decide only [ipcToJson, payloadFields, ipcFromJson, payloadFromFields, jGet,
      if_true, if_false, asStr, Option.some_bind, pUuid_uuidRender mid hid,
      asOptStr_optStrToJson, Option.map_some']
  | ping =>
    simp +decide only [ipcToJson, payloadFields, ipcFromJson, payloadFromFields, jGet,
      if_true, if_false, asStr, Option.some_bind, pUuid_uuidRender mid hid,
      Option.map_some']
  | pong =>
    simp +decide only [ipcToJson, payloadFields, ipcFromJson, payloadFromFields, jGet,
      if_true, if_false, asStr, Option.some_bind, pUuid_uuidRender mid hid,
      Option.map_some']

/-- Byte-level envelope round trip: `from_slice` after `to_vec`. -/
theorem deserializeIpc_serializeIpc (m : IpcMessage) (h : ipcWfB m = true) :
    deserializeIpc (serializeIpc m) = Option.some m := by
  unfold deserializeIpc serializeIpc
  rw [parseJsonBytes_render (ipcToJson m)]
  rw [Option.some_bind]
  exact ipcFromJson_toJson m h

/-- `from_be_bytes` inverts `to_be_bytes` below `2^32`. -/
theorem beU32_u32BeBytes (n : Nat) (h : n < 4294967296) :
    beU32 (u32BeBytes n) = n := by
  simp only [u32BeBytes, beU32]
  omega

/-- The length header is always 4 bytes. -/
theorem u32BeBytes_length (n : Nat) : (u32BeBytes n).length = 4 := rfl

/-- C6: framing round trip.  For every `IpcMessage` envelope that `encode`
accepts (its serialized JSON is within the 16 MiB cap — the Ok branch of
`encode`), feeding the produced frame to `decode` returns the envelope
unchanged (same id and payload), consuming exactly the frame and leaving
any following bytes in the stream. -/
theorem C6_framing_roundtrip (m : IpcMessage) (bytes : List Nat)
    (hwf : ipcWfB m = true)
    (henc : LengthPrefixedCodec.encode m = .ok bytes)
    (extra : List Nat) (after : StreamEnd) :
    LengthPrefixedCodec.decode ⟨bytes ++ extra, after⟩ =
      .ok (m, ⟨extra, after⟩) := by
  have hshape : ¬ u32Max < (serializeIpc m).length ∧
      ¬ LengthPrefixedCodec.MAX_MESSAGE_SIZE < (serializeIpc m).length ∧
      bytes = u32BeBytes (serializeIpc m).length ++ serializeIpc m := by
    simp only [LengthPrefixedCodec.encode] at henc
    by_cases h1 : u32Max < (serializeIpc m).length
    · rw [if_pos h1] at henc
      exact absurd henc (by simp)
    · rw [if_neg h1] at henc
      by_cases h2 : LengthPrefixedCodec.MAX_MESSAGE_SIZE < (serializeIpc m).length
      · rw [if_pos h2] at henc
        exact absurd henc (by simp)
      · rw [if_neg h2] at henc
        simp only [Except.ok.injEq] at henc
        exact ⟨h1, h2, henc.symm⟩
  obtain ⟨h1, h2, hb⟩ := hshape
  subst hb
  rw [List.append_assoc]
  have hre1 : readExact ⟨u32BeBytes (serializeIpc m).length ++
      (serializeIpc m ++ extra), after⟩ 4 =
      .ok (u32BeBytes (serializeIpc m).length, ⟨serializeIpc m ++ extra, after⟩) := by
    unfold readExact
    rw [if_pos (by rw [List.length_append, u32BeBytes_length]; omega)]
    rw [List.take_left' (u32BeBytes_length _), List.drop_left' (u32BeBytes_length _)]
  have hlen : beU32 (u32BeBytes (serializeIpc m).length) = (serializeIpc m).length :=
    beU32_u32BeBytes _ (by unfold u32Max at h1; omega)
  have hre2 : readExact ⟨serializeIpc m ++ extra, after⟩ (serializeIpc m).length =
      .ok (serializeIpc m, ⟨extra, after⟩) := by
    unfold readExact
    rw [if_pos (by rw [List.length_append]; omega)]
    rw [List.take_left, List.drop_left]
  simp only [LengthPrefixedCodec.decode, hre1, hlen, hre2, if_neg h2,
    deserializeIpc_serializeIpc m hwf]

/-- Witness for C6: the round trip evaluated on the concrete `ping`
envelope with the nil UUID, with trailing bytes left in the stream. -/
theorem C6_framing_roundtrip_witness :
    ipcWfB ⟨⟨0⟩, .ping⟩ = true ∧
    LengthPrefixedCodec.decode
      ⟨(u32BeBytes (serializeIpc ⟨⟨0⟩, .ping⟩).length ++ serializeIpc ⟨⟨0⟩, .ping⟩) ++
        [99], .eof⟩ =
      .ok (⟨⟨0⟩, .ping⟩, ⟨[99], .eof⟩) :=
  ⟨by decide, C6_framing_roundtrip ⟨⟨0⟩, .ping⟩ _ (by decide) (by rfl) [99] .eof⟩
